import Mathlib

/-!
Verification of the `usbd-dfu` USB Device Firmware Upgrade stack and its
companion STM32F401 bootloader, against the natural-language specification.

The development shallowly embeds the Rust sources:

* `src/src/nucleo_f401re/bootloader.rs` — sector map and flash engine
  (`Sector`, `Memory`);
* `src/src/nucleo_f401re/dfu/mode.rs` — the download driver (`Program`,
  `DFUModeImpl`) and the image validator;
* `src/usbd-dfu/src/lib.rs` — the shared DFU `State` and `Error` types;
* `src/usbd-dfu/src/mode.rs` — the DFU-mode protocol state machine,
  generic over its handler;
* `src/usbd-dfu/src/runtime.rs` — the runtime protocol state machine.

Flash is modelled as a byte-addressed map `Nat → Nat`.  The hardware flash
controller is modelled fault-free and instantly completing: the busy flag
is never observed set, and the write-protect / operation error flags are
never observed set, so `Memory.poll` always reaches the verification
branch of the source.  Rust panics (failed slice indexing, `assert!`,
`unreachable!`) are modelled as `Option.none` results.  The cryptographic
hash is an external crate, outside this repository; it is modelled as a
fixed 20-byte digest function of the byte sequence, which is all the
claims use of it.
-/

namespace UsbdDfu

/-! ## Platform constants (nucleo_f401re/mod.rs, bootloader.rs, dfu/mod.rs) -/

/-- Start address of the application image (bootloader.rs). -/
def APPLICATION_REGION_START : Nat := 0x08008000

/-- End of the on-chip flash (nucleo_f401re/mod.rs). -/
def FLASH_END : Nat := 0x08080000

/-- Length of the SHA-1 digest used by the default build (dfu/mod.rs). -/
def HASH_LENGTH : Nat := 20

/-- Size of the `Manifest` record `{length: usize, hash: [u8; 20]}` on the
32-bit target: 4 length bytes followed by the 20 hash bytes. -/
def MANIFEST_SIZE : Nat := 4 + HASH_LENGTH

/-- Manifest slot size, rounded up to a multiple of 128 bytes
(nucleo_f401re/mod.rs). -/
def MANIFEST_SIZE_ALIGNED : Nat := (MANIFEST_SIZE + 127) / 128 * 128

/-- Start address of the persisted manifest (nucleo_f401re/mod.rs). -/
def MANIFEST_REGION_START : Nat := FLASH_END - MANIFEST_SIZE_ALIGNED

/-- Maximum application image size (bootloader.rs). -/
def APPLICATION_LENGTH : Nat := MANIFEST_REGION_START - APPLICATION_REGION_START

/-- Maximum bytes per DNLOAD/UPLOAD transfer (impl_capabilities! in
nucleo_f401re/dfu/mod.rs). -/
def TRANSFER_SIZE : Nat := 128

/-! ## Sector map (bootloader.rs) -/

/-- Erase geometry of the STM32F401 internal flash: the static `SECTORS`
table of `(start_address, length)` pairs. -/
def SECTORS : List (Nat × Nat) :=
  [ (0x08000000, 16 * 1024)
  , (0x08004000, 16 * 1024)
  , (0x08008000, 16 * 1024)
  , (0x0800C000, 16 * 1024)
  , (0x08010000, 64 * 1024)
  , (0x08020000, 128 * 1024)
  , (0x08040000, 128 * 1024)
  , (0x08060000, 128 * 1024) ]

/-- Start address of sector `i` of the static table. -/
def sectorStart (i : Nat) : Nat := (SECTORS.getD i (0, 0)).1

/-- Byte length of sector `i` of the static table. -/
def sectorLength (i : Nat) : Nat := (SECTORS.getD i (0, 0)).2

/-- Address `a` lies inside sector `i` (the `region()` of the sector). -/
def sectorContains (i a : Nat) : Prop :=
  sectorStart i ≤ a ∧ a < sectorStart i + sectorLength i

instance (i a : Nat) : Decidable (sectorContains i a) := by
  unfold sectorContains; infer_instance

/-- Embedding of `TryFrom<usize> for Sector`: translate a byte address to
the sector identifier holding it, or fail (the source fails with
`Error::Address`). -/
def Sector.tryFrom (address : Nat) : Option Nat :=
  if address < 0x08000000 then
    none
  else if address < 0x08010000 then
    some ((address >>> 14) &&& 0xF)
  else if address < 0x08020000 then
    some 4
  else if address < 0x08080000 then
    some (((address >>> 17) &&& 0xF) + 4)
  else
    none

/-- Embedding of `Iterator for Sector`: step to the strictly-next sector,
or none past the last (the iterator also leaves `self` at 7 in that
case, which the driver embedding reproduces). -/
def Sector.next (i : Nat) : Option Nat :=
  if i < 7 then some (i + 1) else none

/-! ### Arithmetic characterizations of the bit manipulations -/

theorem and_fifteen (n : Nat) : n &&& 15 = n % 16 := by
  have h := Nat.and_pow_two_sub_one_eq_mod n 4
  norm_num at h
  exact h

theorem and_one (n : Nat) : n &&& 1 = n % 2 := Nat.and_one_is_mod n

theorem and_two_eq_two_iff (n : Nat) : n &&& 2 = 2 ↔ n % 4 ≥ 2 := by
  have h1 : n &&& 2 = (n.testBit 1).toNat * 2 := by
    have h := Nat.and_two_pow n 1
    norm_num at h
    exact h
  rw [h1, Nat.testBit_to_div_mod]
  rcases Nat.decEq (n / 2 % 2) 1 with h | h <;> simp [h] <;> omega

theorem tryFrom_in_range (a : Nat) (h1 : 0x08000000 ≤ a) (h2 : a < 0x08080000) :
    Sector.tryFrom a =
      some (if a < 0x08010000 then a / 16384 % 16
            else if a < 0x08020000 then 4
            else a / 131072 % 16 + 4) := by
  unfold Sector.tryFrom
  rw [if_neg (by omega)]
  by_cases c1 : a < 0x08010000
  · rw [if_pos c1, if_pos c1, Nat.shiftRight_eq_div_pow, and_fifteen]
  · rw [if_neg c1, if_neg c1]
    by_cases c2 : a < 0x08020000
    · rw [if_pos c2, if_pos c2]
    · rw [if_neg c2, if_neg c2, if_pos (by omega), Nat.shiftRight_eq_div_pow, and_fifteen]

/-- C4. For every address in the covered flash range
`[0x08000000, 0x08080000)`, `Sector::try_from` returns the unique sector
of the static table whose range contains it; for every address outside
that range it fails (with the `Address` error); and `Sector::next` returns
the strictly-next sector, or none past the last. -/
theorem sector_map_correct (a : Nat) :
    (0x08000000 ≤ a → a < 0x08080000 →
      ∃ i, Sector.tryFrom a = some i ∧ sectorContains i a ∧
        ∀ j, j < 8 → sectorContains j a → j = i) ∧
    (a < 0x08000000 ∨ 0x08080000 ≤ a → Sector.tryFrom a = none) ∧
    (∀ i, Sector.next i = if i < 7 then some (i + 1) else none) := by
  refine ⟨?_, ?_, fun i => rfl⟩
  · intro h1 h2
    rw [tryFrom_in_range a h1 h2]
    refine ⟨_, rfl, ?_, ?_⟩
    · split
      · have hq : a / 16384 % 16 = a / 16384 - 0x2000 := by omega
        rcases (by omega : a < 0x08004000 ∨ (0x08004000 ≤ a ∧ a < 0x08008000) ∨
            (0x08008000 ≤ a ∧ a < 0x0800C000) ∨ 0x0800C000 ≤ a) with h | h | h | h <;>
          [ (have hi : a / 16384 % 16 = 0 := by omega);
            (have hi : a / 16384 % 16 = 1 := by omega);
            (have hi : a / 16384 % 16 = 2 := by omega);
            (have hi : a / 16384 % 16 = 3 := by omega)] <;>
          rw [hi] <;> simp [sectorContains, sectorStart, sectorLength, SECTORS] <;> omega
      · split
        · simp only [sectorContains, sectorStart, sectorLength, SECTORS]
          norm_num
          omega
        · rcases (by omega : a < 0x08040000 ∨ (0x08040000 ≤ a ∧ a < 0x08060000) ∨
              0x08060000 ≤ a) with h | h | h <;>
            [ (have hi : a / 131072 % 16 + 4 = 5 := by omega);
              (have hi : a / 131072 % 16 + 4 = 6 := by omega);
              (have hi : a / 131072 % 16 + 4 = 7 := by omega)] <;>
            rw [hi] <;> simp [sectorContains, sectorStart, sectorLength, SECTORS] <;> omega
    · intro j hj hcont
      interval_cases j <;>
        simp only [sectorContains, sectorStart, sectorLength, SECTORS] at hcont ⊢ <;>
        norm_num at hcont ⊢ <;> split_ifs <;> omega
  · intro h
    unfold Sector.tryFrom
    rcases h with h | h
    · rw [if_pos h]
    · rw [if_neg (by omega), if_neg (by omega), if_neg (by omega), if_neg (by omega)]

/-- Witness for C4 at the concrete address 0x08042345 (sector 6). -/
theorem sector_map_correct_witness :
    ∃ i, Sector.tryFrom 0x08042345 = some i ∧ sectorContains i 0x08042345 ∧
      ∀ j, j < 8 → sectorContains j 0x08042345 → j = i :=
  (sector_map_correct 0x08042345).1 (by norm_num) (by norm_num)

/-! ## DFU error kinds (usbd-dfu/src/lib.rs) -/

/-- Embedding of the `Error` enum of DFU 1.1 Table 6.1 (lib.rs). -/
inductive Error
  | Target
  | File
  | Write
  | Erase
  | CheckErased
  | Programming
  | Verify
  | Address
  | NotDone
  | Firmware
  | Vendor
  | UsbReset
  | PowerOnReset
  | Unknown
  | StalledPkt
deriving DecidableEq, Repr

/-- Embedding of `From<Error> for u8`: the numeric wire code of an error
kind (the `#[repr(u8)]` discriminants of lib.rs). -/
def Error.code : Error → Nat
  | .Target => 0x01
  | .File => 0x02
  | .Write => 0x03
  | .Erase => 0x04
  | .CheckErased => 0x05
  | .Programming => 0x06
  | .Verify => 0x07
  | .Address => 0x08
  | .NotDone => 0x09
  | .Firmware => 0x0A
  | .Vendor => 0x0B
  | .UsbReset => 0x0C
  | .PowerOnReset => 0x0D
  | .Unknown => 0x0E
  | .StalledPkt => 0x0F

/-- Rust's `core::task::Poll`, specialised to the values the sources use. -/
inductive Polled (α : Type)
  | pending
  | ready (val : α)
deriving DecidableEq, Repr

/-! ## Flash engine (bootloader.rs `Memory`)

Flash content is a byte-addressed map.  The hardware controller is
modelled fault-free and instantly completing: `erase` and `program`
perform their effect at kick time, the busy flag is never observed set,
and the `wrperr` / `operr` status flags are never observed set, so
`Memory.poll` always reaches the post-condition check of the source
(`is_erased` after an erase, read-back verification after a program). -/

/-- Byte-addressed flash content. -/
def Mem : Type := Nat → Nat

/-- Read `n` consecutive bytes starting at `addr`. -/
def readBytes (addr n : Nat) (mem : Mem) : List Nat :=
  (List.range n).map fun k => mem (addr + k)

/-- Write the bytes of `src` consecutively starting at `addr`. -/
def writeBytes (addr : Nat) (src : List Nat) (mem : Mem) : Mem :=
  fun a => if addr ≤ a ∧ a < addr + src.length then src.getD (a - addr) 0 else mem a

/-- Hardware effect of erasing sector `i`: every byte of its region
becomes `0xFF`. -/
def eraseRegion (i : Nat) (mem : Mem) : Mem :=
  fun a => if sectorStart i ≤ a ∧ a < sectorStart i + sectorLength i then 0xFF else mem a

/-- Embedding of `Sector::is_erased`: every word of the region reads
`0xFFFF_FFFF`; stated byte-wise (sector lengths are multiples of 4 and a
32-bit word is all-ones exactly when its four bytes are `0xFF`). -/
def Sector.isErased (i : Nat) (mem : Mem) : Bool :=
  (List.range (sectorLength i)).all fun k => mem (sectorStart i + k) == 0xFF

/-- Embedding of the `MemoryState` enum of bootloader.rs.  `Programming`
stores the owned copy of the word being written (`src_owned[..to_write]`
in the source). -/
inductive MemoryState
  | Erasing (sector : Nat)
  | Programming (addr : Nat) (to_write : Nat) (src : List Nat)
  | Idle
deriving DecidableEq, Repr

/-- Embedding of the `Memory` flash engine: the flash content plus the
engine state.  The lock/key registers are not modelled: `unlock()` always
succeeds on the fault-free controller, as the key sequence is correct in
the source. -/
structure Memory where
  mem : Mem
  state : MemoryState

/-- Embedding of `Memory::erase`: kick a sector erase.  On the fault-free
controller `unlock` succeeds and the kick returns `Poll::Pending`; the
hardware effect is applied immediately. -/
def Memory.erase (m : Memory) (sector : Nat) : Memory :=
  { mem := eraseRegion sector m.mem, state := .Erasing sector }

/-- Width computation of `Memory::program`: `1` if the address is odd,
else `2` if bit 1 of the address is set, else `min(src.len(), 4)`; a
computed width of `3` is normalized down to `2`. -/
def toWrite (addr srcLen : Nat) : Nat :=
  let t := if addr &&& 1 = 1 then 1 else if addr &&& 2 = 2 then 2 else min srcLen 4
  if t = 3 then 2 else t

/-- Embedding of `Memory::program`: kick a one-word program of width
`toWrite`.  The source panics when the width exceeds the slice
(`&src[..to_write]` out of bounds, preceded by an out-of-slice unsafe
read) and hits `unreachable!` when the width is not 1, 2 or 4 (empty
slice); both are modelled as `none`. -/
def Memory.program (m : Memory) (addr : Nat) (src : List Nat) : Option Memory :=
  if toWrite addr src.length ≤ src.length ∧
      (toWrite addr src.length = 1 ∨ toWrite addr src.length = 2 ∨
        toWrite addr src.length = 4) then
    some { mem := writeBytes addr (src.take (toWrite addr src.length)) m.mem
         , state := .Programming addr (toWrite addr src.length)
             (src.take (toWrite addr src.length)) }
  else
    none

/-- Embedding of `Memory::poll` on the fault-free controller: the busy
flag is clear and the error flags are clear, so the source's
post-condition check decides the result — `is_erased` for an erase
(`CheckErased` on failure), read-back comparison for a program (`Verify`
on failure).  The engine returns to `Idle` before the result is
delivered; polling an `Idle` engine returns the source's unused
`Ready(Ok(0))`. -/
def Memory.poll (m : Memory) : Memory × Polled (Except Error Nat) :=
  match m.state with
  | .Idle => (m, .ready (.ok 0))
  | .Erasing sector =>
      if Sector.isErased sector m.mem then
        ({ m with state := .Idle }, .ready (.ok 0))
      else
        ({ m with state := .Idle }, .ready (.error .CheckErased))
  | .Programming addr w src =>
      if readBytes addr w m.mem = src then
        ({ m with state := .Idle }, .ready (.ok w))
      else
        ({ m with state := .Idle }, .ready (.error .Verify))

/-! ### Engine helper lemmas -/

theorem isErased_eraseRegion (i : Nat) (mem : Mem) :
    Sector.isErased i (eraseRegion i mem) = true := by
  simp only [Sector.isErased, List.all_eq_true, List.mem_range, eraseRegion]
  intro k hk
  rw [if_pos (by omega)]
  rfl

theorem readBytes_writeBytes (addr : Nat) (src : List Nat) (mem : Mem) :
    readBytes addr src.length (writeBytes addr src mem) = src := by
  apply List.ext_getElem
  · simp [readBytes]
  · intro k h1 h2
    simp only [readBytes, writeBytes, List.getElem_map, List.getElem_range]
    rw [if_pos ⟨Nat.le_add_right _ _, by omega⟩, Nat.add_sub_cancel_left]
    exact List.getD_eq_getElem src 0 h2

theorem length_readBytes (addr n : Nat) (mem : Mem) :
    (readBytes addr n mem).length = n := by
  simp [readBytes]

/-! ## Claim C3: the width of a programmed word -/

/-- Width formula in the exact words of claim C3: `w = 1` if `addr` is
odd, else `w = 2` if `addr & 2 == 2` or `src.len() < 4`, else `w = 4`.
This is the claim's statement, kept separate from the source embedding
`toWrite` so that the two can be compared. -/
def specWidthC3 (addr srcLen : Nat) : Nat :=
  if addr % 2 = 1 then 1
  else if addr &&& 2 = 2 ∨ srcLen < 4 then 2
  else 4

/-- Arithmetic restatement of the width the source actually computes:
`1` on odd addresses; `2` on addresses that are 2 mod 4; otherwise
`min(src.len(), 4)` with `3` normalized down to `2` — in particular a
single remaining byte at a word-aligned address is written with width
`1`, not `2`. -/
def normalizedWidth (addr srcLen : Nat) : Nat :=
  if addr % 2 = 1 then 1
  else if addr % 4 = 2 then 2
  else if srcLen = 3 then 2
  else min srcLen 4

/-- Counterexample to C3 as stated: at the word-aligned address
`application_start` with a 1-byte slice, the code computes width 1 while
the claim's formula gives width 2. -/
theorem program_width_claim_false :
    toWrite 0x08008000 1 = 1 ∧ specWidthC3 0x08008000 1 = 2 ∧
      toWrite 0x08008000 1 ≠ specWidthC3 0x08008000 1 := by
  refine ⟨by decide, by decide, by decide⟩

/-- C3 as amended.  For every address and non-empty source slice, the
width the engine computes is `normalizedWidth` (1 on odd addresses, 2 on
half-aligned addresses, else `min(len, 4)` with 3 normalized to 2), and
is always 1, 2 or 4.  When that width fits in the slice, `program` kicks
exactly one word of that width — the flash changes exactly on
`[addr, addr+w)`, taking the first `w` slice bytes; when it does not fit
(a single trailing byte at a half-aligned address) the source panics,
modelled as `none`. -/
theorem program_width_correct (m : Memory) (addr : Nat) (src : List Nat)
    (hne : src ≠ []) :
    toWrite addr src.length = normalizedWidth addr src.length ∧
    (toWrite addr src.length = 1 ∨ toWrite addr src.length = 2 ∨
      toWrite addr src.length = 4) ∧
    (∀ m', Memory.program m addr src = some m' →
      m'.state = .Programming addr (toWrite addr src.length)
        (src.take (toWrite addr src.length)) ∧
      ∀ a, m'.mem a =
        if addr ≤ a ∧ a < addr + toWrite addr src.length then
          src.getD (a - addr) 0
        else m.mem a) ∧
    (Memory.program m addr src = none ↔ toWrite addr src.length > src.length) := by
  have hlen : 1 ≤ src.length := List.length_pos.mpr hne
  have hchar : toWrite addr src.length = normalizedWidth addr src.length := by
    unfold toWrite normalizedWidth
    have h1 := and_one addr
    have h2 := and_two_eq_two_iff addr
    rcases Nat.decEq (addr % 2) 1 with hodd | hodd <;>
      rcases Nat.decEq (addr % 4) 2 with hhalf | hhalf <;>
      simp only [h1] <;> split_ifs <;> first | rfl | omega
  have hw : toWrite addr src.length = 1 ∨ toWrite addr src.length = 2 ∨
      toWrite addr src.length = 4 := by
    rw [hchar]; unfold normalizedWidth
    split_ifs <;> omega
  refine ⟨hchar, hw, ?_, ?_⟩
  · intro m' hsome
    unfold Memory.program at hsome
    split at hsome
    · rename_i hguard
      cases hsome
      refine ⟨rfl, ?_⟩
      intro a
      show writeBytes addr (src.take (toWrite addr src.length)) m.mem a = _
      unfold writeBytes
      rw [List.length_take]
      have htk : min (toWrite addr src.length) src.length = toWrite addr src.length := by
        omega
      rw [htk]
      split_ifs with hin
      · rw [List.getD_eq_getElem?_getD, List.getElem?_take, if_pos (by omega),
          ← List.getD_eq_getElem?_getD]
      · rfl
    · exact absurd hsome (by simp)
  · unfold Memory.program
    constructor
    · intro hnone
      by_contra hgt
      rw [if_pos ⟨by omega, hw⟩] at hnone
      exact Option.noConfusion hnone
    · intro hgt
      rw [if_neg (by omega)]

/-- Witness for C3 as amended, at address `application_start + 2` with the
1-byte slice `[3]`: the computed width is 2, which exceeds the slice, so
`program` panics (`none`) — exactly the overrun the amendment describes. -/
theorem program_width_correct_witness :
    toWrite 0x08008002 1 = normalizedWidth 0x08008002 1 ∧
    (toWrite 0x08008002 1 = 1 ∨ toWrite 0x08008002 1 = 2 ∨ toWrite 0x08008002 1 = 4) ∧
    (Memory.program ⟨fun _ => 0xFF, .Idle⟩ 0x08008002 [3] = none ↔
      toWrite 0x08008002 1 > 1) := by
  have h := program_width_correct ⟨fun _ => 0xFF, .Idle⟩ 0x08008002 [3] (by simp)
  exact ⟨h.1, h.2.1, h.2.2.2⟩

/-! ## Manifest codec (nucleo_f401re/dfu/mod.rs, dfu/mode.rs) -/

/-- Modelled from the spec: `hash(bytes) -> [u8; H]` is computed by the
external `sha1` crate (H = 20 in the default build), which is outside this
repository.  The claims use only that the digest is a fixed-length
function of the byte sequence, so it is modelled as a fixed executable
20-byte digest. -/
def computeHash (bytes : List Nat) : List Nat :=
  (List.range HASH_LENGTH).map fun i =>
    bytes.foldl (fun acc b => (acc * 31 + b + 1) % 256) i

theorem length_computeHash (bytes : List Nat) :
    (computeHash bytes).length = HASH_LENGTH := by
  simp [computeHash]

/-- Raw bytes of the `Manifest` record, as laid out by the source's
`transmute` on the little-endian 32-bit target: 4 little-endian length
bytes followed by the 20 hash bytes. -/
def serializeManifest (length : Nat) (hash : List Nat) : List Nat :=
  [length % 256, length / 256 % 256, length / 65536 % 256,
    length / 16777216 % 256] ++ hash

theorem length_serializeManifest (length : Nat) (hash : List Nat)
    (h : hash.length = HASH_LENGTH) :
    (serializeManifest length hash).length = MANIFEST_SIZE := by
  simp [serializeManifest, MANIFEST_SIZE, h, HASH_LENGTH]

/-- Little-endian 32-bit word read, as performed by the source's raw
pointer casts (`Manifest::get`, the stack-pointer / reset-vector reads). -/
def readWord (addr : Nat) (mem : Mem) : Nat :=
  mem addr + 256 * mem (addr + 1) + 65536 * mem (addr + 2) +
    16777216 * mem (addr + 3)

/-- Hash field of the persisted manifest, read from flash. -/
def manifestHashOf (mem : Mem) : List Nat :=
  readBytes (MANIFEST_REGION_START + 4) HASH_LENGTH mem

/-! ## Download driver (nucleo_f401re/dfu/mode.rs `Program`) -/

/-- Embedding of the `ProgramState` enum.  The fixed `[u8; 128]` /
`[u8; size_of::<Manifest>()]` buffers are lists. -/
inductive ProgramState
  | AwaitData
  | AwaitEraseBeforeProgram (data : List Nat) (data_len wr_ptr : Nat)
  | AwaitProgram (data : List Nat) (data_len wr_ptr : Nat)
  | AwaitErase
  | AwaitProgramManifest (data : List Nat) (wr_ptr : Nat)
  | Done
deriving DecidableEq, Repr

/-- Embedding of the `Program` record of the download driver. -/
structure Program where
  current_sector : Nat
  addr : Nat
  state : ProgramState
deriving DecidableEq, Repr

/-- The incoming block copied into the fixed `[u8; TRANSFER_SIZE]` buffer
(the remainder stays zero).  Callers guard `buf.len() ≤ TRANSFER_SIZE`;
the source's `copy_from_slice` panics otherwise. -/
def padTransfer (buf : List Nat) : List Nat :=
  buf ++ List.replicate (TRANSFER_SIZE - buf.length) 0

/-- Embedding of `Program::new`: reject oversized downloads, buffer the
block, and kick an erase of the first application sector.  The
`copy_from_slice` panic on a block larger than the transfer buffer is
`none`. -/
def Program.new (memory : Memory) (buf : List Nat) :
    Option (Except Error (Program × Memory)) :=
  if buf.length ≥ APPLICATION_LENGTH then some (.error .Address)
  else if buf.length > TRANSFER_SIZE then none
  else
    match Sector.tryFrom APPLICATION_REGION_START with
    | none => some (.error .Address)
    | some current_sector =>
        some (.ok
          ( { current_sector := current_sector
            , addr := APPLICATION_REGION_START
            , state := .AwaitEraseBeforeProgram (padTransfer buf) buf.length 0 }
          , memory.erase current_sector ))

/-- Embedding of `Program::erase_or_program`: refuse to touch the manifest
slot, then either kick an erase of a newly-entered sector (capturing it as
the current sector) or kick the program of the next word from
`data[wr_ptr..data_len]`.  The slice-indexing panic is `none`. -/
def Program.eraseOrProgram (memory : Memory) (addr : Nat) (current_sector : Nat)
    (data : List Nat) (data_len wr_ptr : Nat) :
    Option (Except Error (ProgramState × Nat × Memory)) :=
  if addr ≥ MANIFEST_REGION_START then some (.error .Address)
  else
    match Sector.tryFrom addr with
    | none => some (.error .Address)
    | some sector =>
        if sector ≠ current_sector then
          some (.ok (.AwaitEraseBeforeProgram data data_len wr_ptr, sector,
            memory.erase sector))
        else if wr_ptr ≤ data_len ∧ data_len ≤ data.length then
          match memory.program addr ((data.take data_len).drop wr_ptr) with
          | none => none
          | some m =>
              some (.ok (.AwaitProgram data data_len wr_ptr, current_sector, m))
        else none

/-- Embedding of `Program::erase_or_program_manifest`: advance the current
sector and kick its erase while sectors remain (the `Iterator` impl
mutates the sector in place), and once past the last sector build the
manifest from the bytes downloaded so far — the length is `addr -
application_start`, the hash covers the first `min(application_max,
length)` flash bytes of the application region — then kick its program at
the manifest slot. -/
def Program.eraseOrProgramManifest (p : Program) (memory : Memory) :
    Option (Program × Memory × Polled (Except Error Unit)) :=
  match Sector.next p.current_sector with
  | some sector =>
      some ({ p with current_sector := sector, state := .AwaitErase },
        memory.erase sector, .pending)
  | none =>
      match memory.program MANIFEST_REGION_START
          (serializeManifest (p.addr - APPLICATION_REGION_START)
            (computeHash (readBytes APPLICATION_REGION_START
              (min APPLICATION_LENGTH (p.addr - APPLICATION_REGION_START))
              memory.mem))) with
      | none => none
      | some m =>
          some ({ p with
                  addr := MANIFEST_REGION_START,
                  state := .AwaitProgramManifest
                    (serializeManifest (p.addr - APPLICATION_REGION_START)
                      (computeHash (readBytes APPLICATION_REGION_START
                        (min APPLICATION_LENGTH (p.addr - APPLICATION_REGION_START))
                        memory.mem))) 0 },
            m, .pending)

/-- Embedding of `Program::update`: from `AwaitData`, buffer the new block
and immediately decide erase-or-program at the current address; from any
other sub-state the source answers `Ready(Unknown)`. -/
def Program.update (p : Program) (memory : Memory) (buf : List Nat) :
    Option (Except Error (Program × Memory)) :=
  match p.state with
  | .AwaitData =>
      if buf.length > TRANSFER_SIZE then none
      else
        match Program.eraseOrProgram memory p.addr p.current_sector
            (padTransfer buf) buf.length 0 with
        | none => none
        | some (.error e) => some (.error e)
        | some (.ok (st, cs, m)) =>
            some (.ok ({ p with state := st, current_sector := cs }, m))
  | _ => some (.error .Unknown)

/-- Embedding of `Program::finalize`: only legal from `AwaitData`, where
it starts the manifestation pipeline; a `Ready(Ok)` out of
`erase_or_program_manifest` is the source's `unreachable!`. -/
def Program.finalize (p : Program) (memory : Memory) :
    Option (Except Error (Program × Memory)) :=
  match p.state with
  | .AwaitData =>
      match Program.eraseOrProgramManifest p memory with
      | none => none
      | some (p1, m1, .pending) => some (.ok (p1, m1))
      | some (_, _, .ready (.ok _)) => none
      | some (_, _, .ready (.error e)) => some (.error e)
  | _ => some (.error .Unknown)

/-- Embedding of `Program::poll`, one step: give back control while
waiting for data; otherwise poll the engine and, on completion, continue
the pipeline — program after an erase, advance `addr` and `wr_ptr` by the
width written and decide the next word (or return to `AwaitData` at the
end of the block), resume the trailing-erase chain, advance through the
manifest bytes (finishing with `Done`/`Ready(Ok)`).  The source's
`assert!(wr_ptr <= data_len)`, slice-indexing panics and `unreachable!`
arms are `none`. -/
def Program.poll (p : Program) (memory : Memory) :
    Option (Program × Memory × Polled (Except Error Unit)) :=
  match p.state with
  | .AwaitData => some (p, memory, .pending)
  | _ =>
    match memory.poll with
    | (m1, .pending) => some (p, m1, .pending)
    | (m1, .ready (.error e)) => some (p, m1, .ready (.error e))
    | (m1, .ready (.ok n)) =>
      match p.state with
      | .AwaitData => none
      | .AwaitEraseBeforeProgram data data_len wr_ptr =>
          if wr_ptr ≤ data_len ∧ data_len ≤ data.length then
            match m1.program p.addr ((data.take data_len).drop wr_ptr) with
            | none => none
            | some m2 =>
                some ({ p with state := .AwaitProgram data data_len wr_ptr },
                  m2, .pending)
          else none
      | .AwaitProgram data data_len wr_ptr =>
          if wr_ptr + n ≤ data_len then
            if wr_ptr + n = data_len then
              some ({ p with addr := p.addr + n, state := .AwaitData },
                m1, .pending)
            else
              match Program.eraseOrProgram m1 (p.addr + n) p.current_sector
                  data data_len (wr_ptr + n) with
              | none => none
              | some (.error e) =>
                  some ({ p with addr := p.addr + n }, m1, .ready (.error e))
              | some (.ok (st, cs, m2)) =>
                  some ({ current_sector := cs, addr := p.addr + n, state := st },
                    m2, .pending)
          else none
      | .AwaitErase => Program.eraseOrProgramManifest p m1
      | .AwaitProgramManifest data wr_ptr =>
          if wr_ptr + n ≤ data.length then
            if wr_ptr + n = data.length then
              some ({ p with addr := p.addr + n, state := .Done },
                m1, .ready (.ok ()))
            else
              match m1.program (p.addr + n) (data.drop (wr_ptr + n)) with
              | none => none
              | some m2 =>
                  some ({ p with
                          addr := p.addr + n,
                          state := .AwaitProgramManifest data (wr_ptr + n) },
                    m2, .pending)
          else none
      | .Done => none

/-! ## DFU-mode handler implementation (nucleo_f401re/dfu/mode.rs
`DFUModeImpl`) -/

/-- Embedding of the `DFUModeState` enum (the `Manifetation` spelling is
the source's). -/
inductive DFUModeState
  | Download (program : Program)
  | Manifetation (program : Program)
  | Upload (remaining : List Nat)
  | Idle
  | Error
deriving DecidableEq, Repr

/-- Embedding of `DFUModeImpl`: driver state, flash engine, and the level
of the PC13 boot-mode input pin. -/
structure DFUModeImpl where
  state : DFUModeState
  memory : Memory
  boot_mode_low : Bool

/-- Embedding of `DFUModeImpl::download`.  From `Idle` a failing
`Program::new` propagates through the source's `?` operator, returning
before the `is_err` check, so the state stays `Idle`; from `Download` a
failing update moves the state to `Error`; from any other state the
answer is `Unknown` and the state moves to `Error`. -/
def DFUModeImpl.download (impl : DFUModeImpl) (_blockNumber : Nat)
    (buf : List Nat) : Option (Except Error Unit × DFUModeImpl) :=
  match impl.state with
  | .Idle =>
      match Program.new impl.memory buf with
      | none => none
      | some (.error e) => some (.error e, impl)
      | some (.ok (prog, m)) =>
          some (.ok (), { impl with state := .Download prog, memory := m })
  | .Download prog =>
      match Program.update prog impl.memory buf with
      | none => none
      | some (.error e) => some (.error e, { impl with state := .Error })
      | some (.ok (p1, m1)) =>
          some (.ok (), { impl with state := .Download p1, memory := m1 })
  | _ => some (.error .Unknown, { impl with state := .Error })

/-- Embedding of `DFUModeImpl::is_transfer_complete`: complete exactly
when the driver is downloading and waiting for the next block. -/
def DFUModeImpl.isTransferComplete (impl : DFUModeImpl) : Except Error Bool :=
  match impl.state with
  | .Download prog =>
      match prog.state with
      | .AwaitData => .ok true
      | _ => .ok false
  | _ => .error .Unknown

/-- Embedding of `DFUModeImpl::is_manifestation_in_progress`: from
`Download`, finalize (the cloned, mutated program becomes the
`Manifetation` state); from `Manifetation`, poll until `Ready`; errors
move the state to `Error`. -/
def DFUModeImpl.isManifestationInProgress (impl : DFUModeImpl) :
    Option (Except Error Bool × DFUModeImpl) :=
  match impl.state with
  | .Download prog =>
      match Program.finalize prog impl.memory with
      | none => none
      | some (.error e) => some (.error e, { impl with state := .Error })
      | some (.ok (p1, m1)) =>
          some (.ok true, { impl with state := .Manifetation p1, memory := m1 })
  | .Manifetation prog =>
      match Program.poll prog impl.memory with
      | none => none
      | some (_, m1, .ready (.ok _)) =>
          some (.ok false, { impl with state := .Idle, memory := m1 })
      | some (_, m1, .ready (.error e)) =>
          some (.error e, { impl with state := .Error, memory := m1 })
      | some (p1, m1, .pending) =>
          some (.ok true, { impl with state := .Manifetation p1, memory := m1 })
  | .Idle => some (.ok false, impl)
  | _ => some (.error .Unknown, { impl with state := .Error })

/-- Embedding of `DFUModeImpl::poll`: drive the program of a `Download`
or `Manifetation` state one step; completion moves to `Idle`, an error
moves to `Error` and is returned. -/
def DFUModeImpl.poll (impl : DFUModeImpl) :
    Option (Except Error Unit × DFUModeImpl) :=
  match impl.state with
  | .Download prog =>
      match Program.poll prog impl.memory with
      | none => none
      | some (p1, m1, .pending) =>
          some (.ok (), { impl with state := .Download p1, memory := m1 })
      | some (_, m1, .ready (.ok _)) =>
          some (.ok (), { impl with state := .Idle, memory := m1 })
      | some (_, m1, .ready (.error e)) =>
          some (.error e, { impl with state := .Error, memory := m1 })
  | .Manifetation prog =>
      match Program.poll prog impl.memory with
      | none => none
      | some (p1, m1, .pending) =>
          some (.ok (), { impl with state := .Manifetation p1, memory := m1 })
      | some (_, m1, .ready (.ok _)) =>
          some (.ok (), { impl with state := .Idle, memory := m1 })
      | some (_, m1, .ready (.error e)) =>
          some (.error e, { impl with state := .Error, memory := m1 })
  | _ => some (.ok (), impl)

/-- Embedding of `DFUModeImpl::is_firmware_valid`: pin-gated; the stored
hash must equal the hash of the first `min(application_max,
manifest.length)` application bytes; then the prospective stack pointer
(first application word) must lie in on-chip SRAM and the reset vector
(second word) inside the application region. -/
def DFUModeImpl.isFirmwareValid (impl : DFUModeImpl) : Bool :=
  if impl.boot_mode_low then false
  else if computeHash (readBytes APPLICATION_REGION_START
      (min APPLICATION_LENGTH (readWord MANIFEST_REGION_START impl.memory.mem))
      impl.memory.mem) = manifestHashOf impl.memory.mem then
    decide (0x20000000 ≤ readWord APPLICATION_REGION_START impl.memory.mem ∧
        readWord APPLICATION_REGION_START impl.memory.mem < 0x20020000) &&
      decide (APPLICATION_REGION_START ≤
          readWord (APPLICATION_REGION_START + 4) impl.memory.mem ∧
        readWord (APPLICATION_REGION_START + 4) impl.memory.mem <
          MANIFEST_REGION_START)
  else false

/-! ## Concrete download runs

Helpers that thread a run of handler calls, keeping the new state while
the handler reports success.  Used to exhibit concrete reachable states
of the driver. -/

/-- A flash full of stale data, standing for whatever the chip held. -/
def dirtyMem : Mem := fun _ => 0

/-- Run one `download` call, keeping the state on success. -/
def okDownload (impl : DFUModeImpl) (buf : List Nat) : Option DFUModeImpl :=
  match impl.download 0 buf with
  | some (.ok _, i) => some i
  | _ => none

/-- Run one `poll` call, keeping the state on success. -/
def okPoll (impl : DFUModeImpl) : Option DFUModeImpl :=
  match impl.poll with
  | some (.ok _, i) => some i
  | _ => none

/-- Run one `is_manifestation_in_progress` call, keeping the state on
success. -/
def okManifest (impl : DFUModeImpl) : Option DFUModeImpl :=
  match impl.isManifestationInProgress with
  | some (.ok _, i) => some i
  | _ => none

/-- Address cursor of the driver's `Program`, when there is one. -/
def progAddrOf (impl : DFUModeImpl) : Option Nat :=
  match impl.state with
  | .Download p => some p.addr
  | .Manifetation p => some p.addr
  | _ => none

/-- Generic erase-completed-then-program-kicked poll step of the download
phase, stated over a symbolic flash content so that instantiating it at a
concrete run never forces an evaluation of the sector scan. -/
theorem okPoll_eraseThenProgram (cs a dl wr s : Nat) (data : List Nat) (mem : Mem)
    (M2 : Memory)
    (hers : Sector.isErased s mem = true)
    (hg1 : wr ≤ dl) (hg2 : dl ≤ data.length)
    (hprog : Memory.program ⟨mem, .Idle⟩ a ((data.take dl).drop wr) = some M2) :
    okPoll ⟨.Download ⟨cs, a, .AwaitEraseBeforeProgram data dl wr⟩,
        ⟨mem, .Erasing s⟩, false⟩ =
      some ⟨.Download ⟨cs, a, .AwaitProgram data dl wr⟩, M2, false⟩ := by
  simp [okPoll, DFUModeImpl.poll, Program.poll, Memory.poll, hers, hg1, hg2, hprog]

/-- Generic last-erase-completed poll step of the manifestation phase: the
trailing-erase chain is past the last sector, so the driver builds the
manifest and kicks its program at the manifest slot.  Symbolic in the
flash content for the same reason as `okPoll_eraseThenProgram`. -/
theorem okPoll_manifestStart (a s : Nat) (mem : Mem) (M2 : Memory) (man : List Nat)
    (hers : Sector.isErased s mem = true)
    (hman : serializeManifest (a - APPLICATION_REGION_START)
        (computeHash (readBytes APPLICATION_REGION_START
          (min APPLICATION_LENGTH (a - APPLICATION_REGION_START)) mem)) = man)
    (hprog : Memory.program ⟨mem, .Idle⟩ MANIFEST_REGION_START man = some M2) :
    okPoll ⟨.Manifetation ⟨7, a, .AwaitErase⟩, ⟨mem, .Erasing s⟩, false⟩ =
      some ⟨.Manifetation ⟨7, MANIFEST_REGION_START, .AwaitProgramManifest man 0⟩,
        M2, false⟩ := by
  simp [okPoll, DFUModeImpl.poll, Program.poll, Memory.poll, hers,
    Program.eraseOrProgramManifest, Sector.next, hman, hprog]

/-! ## Claim C1: the spec's S2 scenario `[0x01, 0x02, 0x03]` -/

/-- Fresh bootloader state: driver idle, engine idle, boot pin high. -/
def c1Start : DFUModeImpl := ⟨.Idle, ⟨dirtyMem, .Idle⟩, false⟩

/-- State after `download(0, [1,2,3])`: block buffered, first application
sector being erased. -/
def c1AfterDownload : DFUModeImpl :=
  ⟨.Download ⟨2, APPLICATION_REGION_START,
      .AwaitEraseBeforeProgram (padTransfer [1, 2, 3]) 3 0⟩,
    ⟨eraseRegion 2 dirtyMem, .Erasing 2⟩, false⟩

/-- State after the first poll: erase complete, the first word (width 2,
bytes `[1, 2]`) being programmed at `application_start`. -/
def c1AfterPoll : DFUModeImpl :=
  ⟨.Download ⟨2, APPLICATION_REGION_START,
      .AwaitProgram (padTransfer [1, 2, 3]) 3 0⟩,
    ⟨writeBytes APPLICATION_REGION_START [1, 2] (eraseRegion 2 dirtyMem),
      .Programming APPLICATION_REGION_START 2 [1, 2]⟩, false⟩

theorem c1_step_download : okDownload c1Start [1, 2, 3] = some c1AfterDownload := by
  have h1 : ¬ ((3 : Nat) ≥ APPLICATION_LENGTH) := by decide
  have h2 : Sector.tryFrom APPLICATION_REGION_START = some 2 := by decide
  have h3 : ¬ (TRANSFER_SIZE < 3) := by decide
  simp [okDownload, DFUModeImpl.download, Program.new, c1Start, c1AfterDownload,
    h1, h2, h3, Memory.erase]

theorem c1_step_poll : okPoll c1AfterDownload = some c1AfterPoll := by
  have hlen : (padTransfer [1, 2, 3]).length = 128 := by
    simp only [padTransfer, List.length_append, List.length_replicate]
    decide
  have ht : toWrite APPLICATION_REGION_START 3 = 2 := by decide
  have hslice : ((padTransfer [1, 2, 3]).take 3).drop 0 = [1, 2, 3] := by
    rw [List.drop_zero]
    simp only [padTransfer]
    rw [List.take_append_of_le_length (by decide)]
    decide
  have hprog : Memory.program ⟨eraseRegion 2 dirtyMem, .Idle⟩ APPLICATION_REGION_START
      (((padTransfer [1, 2, 3]).take 3).drop 0) =
      some ⟨writeBytes APPLICATION_REGION_START [1, 2] (eraseRegion 2 dirtyMem),
        .Programming APPLICATION_REGION_START 2 [1, 2]⟩ := by
    have hl : ([1, 2, 3] : List Nat).length = 3 := rfl
    have htake : ([1, 2, 3] : List Nat).take 2 = [1, 2] := rfl
    rw [hslice, Memory.program.eq_def, hl, ht, htake]
    rw [if_pos (by omega)]
  exact okPoll_eraseThenProgram 2 APPLICATION_REGION_START 3 0 2 (padTransfer [1, 2, 3])
    (eraseRegion 2 dirtyMem) _ (isErased_eraseRegion 2 dirtyMem)
    (by omega) (by rw [hlen]; omega) hprog

theorem c1_step_panic : DFUModeImpl.poll c1AfterPoll = none := by
  have hv : readBytes APPLICATION_REGION_START 2
      (writeBytes APPLICATION_REGION_START [1, 2] (eraseRegion 2 dirtyMem)) =
      [1, 2] := by
    have h := readBytes_writeBytes APPLICATION_REGION_START [1, 2]
      (eraseRegion 2 dirtyMem)
    norm_num at h
    exact h
  have ha : ¬ (APPLICATION_REGION_START + 2 ≥ MANIFEST_REGION_START) := by decide
  have hs : Sector.tryFrom (APPLICATION_REGION_START + 2) = some 2 := by decide
  have ht : toWrite (APPLICATION_REGION_START + 2) 1 = 2 := by decide
  simp [DFUModeImpl.poll, c1AfterPoll, Program.poll, Memory.poll, hv,
    Program.eraseOrProgram, ha, hs, Memory.program, ht, padTransfer]

/-- C1.  The claim (and the spec's S2 scenario) says the download of the
single block `[0x01, 0x02, 0x03]` completes, leaving `01 02 03 FF FF …`
at `application_start` and a manifest `{3, hash([1,2,3])}`.  The code
does not get there: after the first word (bytes `[1, 2]`, width 2)
completes, the one-byte tail sits at `application_start + 2`, whose
second address bit is set, so `Memory::program` computes width 2 from the
address alone — `addr & 2 == 2` is tested before the remaining length —
and `&src[..2]` on the 1-byte slice panics (after an out-of-slice unsafe
`u16` read).  The run below reaches that panic (`none`) on the second
poll, so no byte sequence whose programming leaves a 1-byte remainder at
such an address can download successfully. -/
theorem download_s2_blocks_panics :
    okDownload c1Start [1, 2, 3] = some c1AfterDownload ∧
    okPoll c1AfterDownload = some c1AfterPoll ∧
    DFUModeImpl.poll c1AfterPoll = none ∧
    toWrite (APPLICATION_REGION_START + 2) 1 = 2 ∧
    Memory.program
      ⟨writeBytes APPLICATION_REGION_START [1, 2] (eraseRegion 2 dirtyMem), .Idle⟩
      (APPLICATION_REGION_START + 2) [3] = none :=
  ⟨c1_step_download, c1_step_poll, c1_step_panic, by decide, by
    have ht : toWrite (APPLICATION_REGION_START + 2) 1 = 2 := by decide
    simp [Memory.program, ht]⟩

/-! ## Claim C5: a reachable manifest-programming state with
`addr > manifest_start` -/

/-- Fresh bootloader state for the one-byte download run. -/
def c5Start : DFUModeImpl := ⟨.Idle, ⟨dirtyMem, .Idle⟩, false⟩

/-- Flash after the erase of sector 2 and the program of `[0xAA]`. -/
def c5m3 : Mem :=
  writeBytes APPLICATION_REGION_START [0xAA] (eraseRegion 2 dirtyMem)

/-- Flash after the trailing erases of sectors 3 through 7. -/
def c5m9 : Mem :=
  eraseRegion 7 (eraseRegion 6 (eraseRegion 5 (eraseRegion 4 (eraseRegion 3 c5m3))))

/-- The manifest bytes the driver builds for the one-byte image. -/
def c5manifest : List Nat := serializeManifest 1 (computeHash [0xAA])

def c5s1 : DFUModeImpl :=
  ⟨.Download ⟨2, APPLICATION_REGION_START,
      .AwaitEraseBeforeProgram (padTransfer [0xAA]) 1 0⟩,
    ⟨eraseRegion 2 dirtyMem, .Erasing 2⟩, false⟩

def c5s2 : DFUModeImpl :=
  ⟨.Download ⟨2, APPLICATION_REGION_START, .AwaitProgram (padTransfer [0xAA]) 1 0⟩,
    ⟨c5m3, .Programming APPLICATION_REGION_START 1 [0xAA]⟩, false⟩

def c5s3 : DFUModeImpl :=
  ⟨.Download ⟨2, APPLICATION_REGION_START + 1, .AwaitData⟩, ⟨c5m3, .Idle⟩, false⟩

def c5s4 : DFUModeImpl :=
  ⟨.Manifetation ⟨3, APPLICATION_REGION_START + 1, .AwaitErase⟩,
    ⟨eraseRegion 3 c5m3, .Erasing 3⟩, false⟩

def c5s9 : DFUModeImpl :=
  ⟨.Manifetation ⟨7, MANIFEST_REGION_START, .AwaitProgramManifest c5manifest 0⟩,
    ⟨writeBytes MANIFEST_REGION_START (c5manifest.take 4) c5m9,
      .Programming MANIFEST_REGION_START 4 (c5manifest.take 4)⟩, false⟩

def c5s10 : DFUModeImpl :=
  ⟨.Manifetation ⟨7, MANIFEST_REGION_START + 4, .AwaitProgramManifest c5manifest 4⟩,
    ⟨writeBytes (MANIFEST_REGION_START + 4) ((c5manifest.drop 4).take 4)
        (writeBytes MANIFEST_REGION_START (c5manifest.take 4) c5m9),
      .Programming (MANIFEST_REGION_START + 4) 4 ((c5manifest.drop 4).take 4)⟩,
    false⟩

theorem c5_step1 : okDownload c5Start [0xAA] = some c5s1 := by
  have h1 : ¬ ((1 : Nat) ≥ APPLICATION_LENGTH) := by decide
  have h2 : Sector.tryFrom APPLICATION_REGION_START = some 2 := by decide
  have h3 : ¬ (TRANSFER_SIZE < 1) := by decide
  simp [okDownload, DFUModeImpl.download, Program.new, c5Start, c5s1,
    h1, h2, h3, Memory.erase]

theorem c5_step2 : okPoll c5s1 = some c5s2 := by
  have hlen : (padTransfer [0xAA]).length = 128 := by
    simp only [padTransfer, List.length_append, List.length_replicate]
    decide
  have ht : toWrite APPLICATION_REGION_START 1 = 1 := by decide
  have hslice : ((padTransfer [0xAA]).take 1).drop 0 = [0xAA] := by
    rw [List.drop_zero]
    simp only [padTransfer]
    rw [List.take_append_of_le_length (by decide)]
    decide
  have hprog : Memory.program ⟨eraseRegion 2 dirtyMem, .Idle⟩ APPLICATION_REGION_START
      (((padTransfer [0xAA]).take 1).drop 0) =
      some ⟨c5m3, .Programming APPLICATION_REGION_START 1 [0xAA]⟩ := by
    have hl : ([0xAA] : List Nat).length = 1 := rfl
    have htake : ([0xAA] : List Nat).take 1 = [0xAA] := rfl
    rw [hslice, Memory.program.eq_def, hl, ht, htake]
    rw [if_pos (by omega)]
    rfl
  exact okPoll_eraseThenProgram 2 APPLICATION_REGION_START 1 0 2 (padTransfer [0xAA])
    (eraseRegion 2 dirtyMem) _ (isErased_eraseRegion 2 dirtyMem)
    (by omega) (by rw [hlen]; omega) hprog

theorem c5_step3 : okPoll c5s2 = some c5s3 := by
  have hv : readBytes APPLICATION_REGION_START 1 c5m3 = [0xAA] := by
    have h := readBytes_writeBytes APPLICATION_REGION_START [0xAA]
      (eraseRegion 2 dirtyMem)
    norm_num at h
    exact h
  simp [okPoll, DFUModeImpl.poll, c5s2, c5s3, Program.poll, Memory.poll, hv]

theorem c5_step4 : okManifest c5s3 = some c5s4 := by
  simp [okManifest, DFUModeImpl.isManifestationInProgress, c5s3, c5s4,
    Program.finalize, Program.eraseOrProgramManifest, Sector.next, Memory.erase]

theorem okPoll_awaitErase (cs a : Nat) (m0 : Mem) (h7 : cs < 7) :
    okPoll ⟨.Manifetation ⟨cs, a, .AwaitErase⟩, ⟨eraseRegion cs m0, .Erasing cs⟩,
        false⟩ =
      some ⟨.Manifetation ⟨cs + 1, a, .AwaitErase⟩,
        ⟨eraseRegion (cs + 1) (eraseRegion cs m0), .Erasing (cs + 1)⟩, false⟩ := by
  have herased := isErased_eraseRegion cs m0
  simp [okPoll, DFUModeImpl.poll, Program.poll, Memory.poll, herased,
    Program.eraseOrProgramManifest, Sector.next, h7, Memory.erase]

theorem c5manifest_length : c5manifest.length = 24 := by
  have h := length_serializeManifest 1 (computeHash [0xAA]) (length_computeHash [0xAA])
  norm_num [MANIFEST_SIZE, HASH_LENGTH] at h
  exact h

theorem c5_step9 :
    okPoll ⟨.Manifetation ⟨7, APPLICATION_REGION_START + 1, .AwaitErase⟩,
      ⟨c5m9, .Erasing 7⟩, false⟩ = some c5s9 := by
  have hers : Sector.isErased 7 c5m9 = true :=
    isErased_eraseRegion 7
      (eraseRegion 6 (eraseRegion 5 (eraseRegion 4 (eraseRegion 3 c5m3))))
  have hd : APPLICATION_REGION_START + 1 - APPLICATION_REGION_START = 1 := by omega
  have hmin : min APPLICATION_LENGTH 1 = 1 := by decide
  have hread : readBytes APPLICATION_REGION_START 1 c5m9 = [0xAA] := by
    show [c5m9 (APPLICATION_REGION_START + 0)] = [0xAA]
    norm_num [c5m9, c5m3, eraseRegion, writeBytes, sectorStart, sectorLength,
      SECTORS, APPLICATION_REGION_START]
  have hman : serializeManifest
      (APPLICATION_REGION_START + 1 - APPLICATION_REGION_START)
      (computeHash (readBytes APPLICATION_REGION_START
        (min APPLICATION_LENGTH
          (APPLICATION_REGION_START + 1 - APPLICATION_REGION_START)) c5m9)) =
      c5manifest := by
    rw [hd, hmin, hread]
    rfl
  have ht4 : toWrite MANIFEST_REGION_START 24 = 4 := by decide
  have hprog : Memory.program ⟨c5m9, .Idle⟩ MANIFEST_REGION_START c5manifest =
      some ⟨writeBytes MANIFEST_REGION_START (c5manifest.take 4) c5m9,
        .Programming MANIFEST_REGION_START 4 (c5manifest.take 4)⟩ := by
    rw [Memory.program.eq_def, c5manifest_length, ht4, if_pos (by omega)]
  exact okPoll_manifestStart (APPLICATION_REGION_START + 1) 7 c5m9 _ c5manifest
    hers hman hprog

theorem c5_step10 : okPoll c5s9 = some c5s10 := by
  have hl4 : (c5manifest.take 4).length = 4 := by
    rw [List.length_take, c5manifest_length]
    norm_num
  have hv : readBytes MANIFEST_REGION_START 4
      (writeBytes MANIFEST_REGION_START (c5manifest.take 4) c5m9) =
      c5manifest.take 4 := by
    have h := readBytes_writeBytes MANIFEST_REGION_START (c5manifest.take 4) c5m9
    rw [hl4] at h
    exact h
  have ht : toWrite (MANIFEST_REGION_START + 4) 20 = 4 := by decide
  have hd : (c5manifest.drop 4).length = 20 := by
    rw [List.length_drop, c5manifest_length]
  have hprog : Memory.program
      ⟨writeBytes MANIFEST_REGION_START (c5manifest.take 4) c5m9, .Idle⟩
      (MANIFEST_REGION_START + 4) (c5manifest.drop 4) =
      some ⟨writeBytes (MANIFEST_REGION_START + 4) ((c5manifest.drop 4).take 4)
          (writeBytes MANIFEST_REGION_START (c5manifest.take 4) c5m9),
        .Programming (MANIFEST_REGION_START + 4) 4 ((c5manifest.drop 4).take 4)⟩ := by
    simp [Memory.program, hd, ht]
  simp [okPoll, DFUModeImpl.poll, c5s9, c5s10, Program.poll, Memory.poll, hv,
    hprog, c5manifest_length]

/-- Counterexample to C5 as stated.  The run downloads the single byte
`[0xAA]`, finalizes, erases the trailing sectors and programs the
manifest; after the first manifest word completes, the driver's
reachable `Program` state has `addr = manifest_start + 4`, violating the
claimed bound `addr ≤ manifest_start`. -/
theorem program_addr_exceeds_manifest_start :
    ((((((((((okDownload c5Start [0xAA]).bind okPoll).bind okPoll).bind
        okManifest).bind okPoll).bind okPoll).bind okPoll).bind okPoll).bind
        okPoll).bind okPoll).bind progAddrOf =
      some (MANIFEST_REGION_START + 4) ∧
    ¬ (MANIFEST_REGION_START + 4 ≤ MANIFEST_REGION_START) := by
  have h5 : okPoll c5s4 = some ⟨.Manifetation ⟨4, APPLICATION_REGION_START + 1,
      .AwaitErase⟩, ⟨eraseRegion 4 (eraseRegion 3 c5m3), .Erasing 4⟩, false⟩ := by
    simp only [c5s4]
    exact okPoll_awaitErase 3 (APPLICATION_REGION_START + 1) c5m3 (by norm_num)
  have h6 := okPoll_awaitErase 4 (APPLICATION_REGION_START + 1)
    (eraseRegion 3 c5m3) (by norm_num)
  have h7 := okPoll_awaitErase 5 (APPLICATION_REGION_START + 1)
    (eraseRegion 4 (eraseRegion 3 c5m3)) (by norm_num)
  have h8 := okPoll_awaitErase 6 (APPLICATION_REGION_START + 1)
    (eraseRegion 5 (eraseRegion 4 (eraseRegion 3 c5m3))) (by norm_num)
  have h9 : okPoll ⟨.Manifetation ⟨7, APPLICATION_REGION_START + 1, .AwaitErase⟩,
      ⟨eraseRegion 7 (eraseRegion 6 (eraseRegion 5 (eraseRegion 4
        (eraseRegion 3 c5m3)))), .Erasing 7⟩, false⟩ = some c5s9 := c5_step9
  refine ⟨?_, by norm_num⟩
  rw [c5_step1, Option.some_bind, c5_step2, Option.some_bind, c5_step3,
    Option.some_bind, c5_step4, Option.some_bind, h5, Option.some_bind, h6,
    Option.some_bind, h7, Option.some_bind, h8, Option.some_bind, h9,
    Option.some_bind, c5_step10, Option.some_bind]
  simp [progAddrOf, c5s10]

/-! ## Claim C7: what `is_firmware_valid` actually guarantees -/

/-- First eight bytes of the crafted image: stack pointer `0x2000_0000`
and reset vector `0x0800_8009`, little-endian. -/
def c7Vectors : List Nat := [0x00, 0x00, 0x00, 0x20, 0x09, 0x80, 0x00, 0x08]

/-- Application-region content of the crafted flash image used to refute
the length conjunct of C7: the two vectors, then erased bytes up to the
manifest. -/
def c7AppBytes : List Nat :=
  (List.range APPLICATION_LENGTH).map fun k =>
    if k < 8 then c7Vectors.getD k 0 else 0xFF

/-- Little-endian bytes of `APPLICATION_LENGTH + 1 = 0x77F81`. -/
def c7LengthBytes : List Nat := [0x81, 0x7F, 0x07, 0x00]

/-- A flash image whose manifest claims a length one byte larger than the
application region, yet whose hash matches the (clamped) application
slice and whose vectors pass the range checks. -/
def c7Mem : Mem := fun a =>
  if a < APPLICATION_REGION_START then 0xFF
  else if a < APPLICATION_REGION_START + 8 then
    c7Vectors.getD (a - APPLICATION_REGION_START) 0
  else if a < MANIFEST_REGION_START then 0xFF
  else if a < MANIFEST_REGION_START + 4 then
    c7LengthBytes.getD (a - MANIFEST_REGION_START) 0
  else if a < MANIFEST_REGION_START + 24 then
    (computeHash c7AppBytes).getD (a - (MANIFEST_REGION_START + 4)) 0
  else 0xFF

/-- Bootloader state over the crafted image, boot pin released. -/
def c7Impl : DFUModeImpl := ⟨.Idle, ⟨c7Mem, .Idle⟩, false⟩

theorem c7_AS : APPLICATION_REGION_START = 134250496 := by
  norm_num [APPLICATION_REGION_START]

theorem c7_MS : MANIFEST_REGION_START = 134741888 := by
  norm_num [MANIFEST_REGION_START, FLASH_END, MANIFEST_SIZE_ALIGNED,
    MANIFEST_SIZE, HASH_LENGTH]

theorem c7_AL : APPLICATION_LENGTH = 491392 := by
  norm_num [APPLICATION_LENGTH, MANIFEST_REGION_START, FLASH_END,
    MANIFEST_SIZE_ALIGNED, MANIFEST_SIZE, HASH_LENGTH, APPLICATION_REGION_START]

theorem c7_readWord_len :
    readWord MANIFEST_REGION_START c7Mem = APPLICATION_LENGTH + 1 := by
  norm_num [readWord, c7Mem, c7Vectors, c7LengthBytes, c7_MS, c7_AS, c7_AL]

theorem c7_app_slice :
    readBytes APPLICATION_REGION_START
      (min APPLICATION_LENGTH (readWord MANIFEST_REGION_START c7Mem)) c7Mem =
      c7AppBytes := by
  rw [c7_readWord_len, min_eq_left (Nat.le_succ _)]
  unfold readBytes c7AppBytes
  apply List.map_congr_left
  intro k hk
  rw [List.mem_range] at hk
  have hAS := c7_AS
  have hMS := c7_MS
  have hAL := c7_AL
  unfold c7Mem
  by_cases h8 : k < 8
  · rw [if_neg (by omega), if_pos (by omega), if_pos h8, Nat.add_sub_cancel_left]
  · rw [if_neg (by omega), if_neg (by omega), if_pos (by omega), if_neg h8]

theorem c7_hash : manifestHashOf c7Mem = computeHash c7AppBytes := by
  unfold manifestHashOf
  apply List.ext_getElem
  · simp [readBytes, length_computeHash]
  · intro k h1 h2
    have hk : k < HASH_LENGTH := by simpa [readBytes] using h1
    have hk20 : k < 20 := by simpa [HASH_LENGTH] using hk
    have hAS := c7_AS
    have hMS := c7_MS
    simp only [readBytes, List.getElem_map, List.getElem_range]
    show c7Mem (MANIFEST_REGION_START + 4 + k) = _
    unfold c7Mem
    rw [if_neg (by omega), if_neg (by omega), if_neg (by omega),
      if_neg (by omega), if_pos (by omega),
      show MANIFEST_REGION_START + 4 + k - (MANIFEST_REGION_START + 4) = k by omega]
    rw [List.getD_eq_getElem _ 0 (by rw [length_computeHash]; omega)]

theorem c7_sp : readWord APPLICATION_REGION_START c7Mem = 0x20000000 := by
  norm_num [readWord, c7Mem, c7Vectors, c7_AS, c7_MS]

theorem c7_reset :
    readWord (APPLICATION_REGION_START + 4) c7Mem = 0x08008009 := by
  norm_num [readWord, c7Mem, c7Vectors, c7_AS, c7_MS]

theorem c7_valid : DFUModeImpl.isFirmwareValid c7Impl = true := by
  unfold DFUModeImpl.isFirmwareValid c7Impl
  rw [if_neg (by simp)]
  rw [if_pos]
  · rw [c7_sp, c7_reset, c7_MS, c7_AS]
    decide
  · rw [c7_app_slice, c7_hash]

/-- Counterexample to C7 as stated: a crafted flash image on which
`is_firmware_valid()` returns true although the persisted manifest length
(`application_max + 1`) exceeds the application region's maximum size —
the validator clamps the length before hashing and never compares it
against the maximum. -/
theorem firmware_valid_length_claim_false :
    DFUModeImpl.isFirmwareValid c7Impl = true ∧
    readWord MANIFEST_REGION_START c7Impl.memory.mem = APPLICATION_LENGTH + 1 ∧
    ¬ (readWord MANIFEST_REGION_START c7Impl.memory.mem ≤ APPLICATION_LENGTH) := by
  refine ⟨c7_valid, c7_readWord_len, ?_⟩
  rw [show c7Impl.memory.mem = c7Mem from rfl, c7_readWord_len]
  omega

/-- C7 as amended.  Whenever `is_firmware_valid()` returns true, the
boot-mode pin is not asserted, the stored hash equals the hash of the
first `min(manifest.length, application_max)` bytes of the application
region, the application's first word (prospective stack pointer) lies in
the on-chip SRAM range, and its second word (reset vector) lies inside
`[application_start, manifest_start)`.  The manifest length itself may
exceed the region's maximum, since the validator clamps it before
hashing. -/
theorem firmware_valid_checks (impl : DFUModeImpl)
    (h : impl.isFirmwareValid = true) :
    impl.boot_mode_low = false ∧
    computeHash (readBytes APPLICATION_REGION_START
        (min APPLICATION_LENGTH (readWord MANIFEST_REGION_START impl.memory.mem))
        impl.memory.mem) = manifestHashOf impl.memory.mem ∧
    0x20000000 ≤ readWord APPLICATION_REGION_START impl.memory.mem ∧
    readWord APPLICATION_REGION_START impl.memory.mem < 0x20020000 ∧
    APPLICATION_REGION_START ≤
      readWord (APPLICATION_REGION_START + 4) impl.memory.mem ∧
    readWord (APPLICATION_REGION_START + 4) impl.memory.mem <
      MANIFEST_REGION_START := by
  unfold DFUModeImpl.isFirmwareValid at h
  by_cases hpin : impl.boot_mode_low = true
  · rw [if_pos hpin] at h
    exact absurd h (by simp)
  · rw [if_neg hpin] at h
    by_cases hhash : computeHash (readBytes APPLICATION_REGION_START
        (min APPLICATION_LENGTH (readWord MANIFEST_REGION_START impl.memory.mem))
        impl.memory.mem) = manifestHashOf impl.memory.mem
    · rw [if_pos hhash] at h
      simp only [Bool.and_eq_true, decide_eq_true_eq] at h
      obtain ⟨⟨hsp1, hsp2⟩, hr1, hr2⟩ := h
      exact ⟨by simpa using hpin, hhash, hsp1, hsp2, hr1, hr2⟩
    · rw [if_neg hhash] at h
      exact absurd h (by simp)

/-- Witness for C7 as amended, at the crafted image `c7Impl`. -/
theorem firmware_valid_checks_witness :
    c7Impl.boot_mode_low = false ∧
    computeHash (readBytes APPLICATION_REGION_START
        (min APPLICATION_LENGTH (readWord MANIFEST_REGION_START c7Impl.memory.mem))
        c7Impl.memory.mem) = manifestHashOf c7Impl.memory.mem ∧
    0x20000000 ≤ readWord APPLICATION_REGION_START c7Impl.memory.mem ∧
    readWord APPLICATION_REGION_START c7Impl.memory.mem < 0x20020000 ∧
    APPLICATION_REGION_START ≤
      readWord (APPLICATION_REGION_START + 4) c7Impl.memory.mem ∧
    readWord (APPLICATION_REGION_START + 4) c7Impl.memory.mem <
      MANIFEST_REGION_START :=
  firmware_valid_checks c7Impl c7_valid

/-! ## Shared DFU state machine types (usbd-dfu/src/lib.rs) -/

/-- Embedding of the `State` enum of lib.rs (runtime and DFU-mode). -/
inductive State
  | AppIdle
  | AppDetach (remaining : Nat)
  | DfuIdle
  | DfuDnloadSync
  | DfuDnloadBusy (timeout : Nat)
  | DfuDnloadIdle
  | DfuManifestSync
  | DfuManifest (timeout : Nat)
  | DfuManifestWaitReset
  | DfuUploadIdle
  | DfuError (e : Error)
deriving DecidableEq, Repr

/-- Embedding of `From<State> for u8`: the DFU 1.1 state byte. -/
def State.code : State → Nat
  | .AppIdle => 0
  | .AppDetach _ => 1
  | .DfuIdle => 2
  | .DfuDnloadSync => 3
  | .DfuDnloadBusy _ => 4
  | .DfuDnloadIdle => 5
  | .DfuManifestSync => 6
  | .DfuManifest _ => 7
  | .DfuManifestWaitReset => 8
  | .DfuUploadIdle => 9
  | .DfuError _ => 10

/-- Embedding of the `Request` constants of lib.rs. -/
def Request.DFU_DETACH : Nat := 0

def Request.DFU_DNLOAD : Nat := 1

def Request.DFU_UPLOAD : Nat := 2

def Request.DFU_GETSTATUS : Nat := 3

def Request.DFU_CLRSTATUS : Nat := 4

def Request.DFU_GETSTATE : Nat := 5

def Request.DFU_ABORT : Nat := 6

/-! ## DFU-mode protocol FSM (usbd-dfu/src/mode.rs)

The class is generic over its `DeviceFirmwareUpgrade` handler; the
handler is a record of capability constants and methods over an abstract
handler-state type, each method returning its result together with the
mutated handler state.  Control transfers are modelled after the
class/interface/index filter has passed: an IN request carries
`{request, value, length}`, an OUT request carries its data, and the
reply is the accept/reject outcome (with the reply bytes for IN). -/

/-- Abstract handler: the `Capabilities` constants plus the
`DeviceFirmwareUpgrade` trait methods of mode.rs, over handler state `σ`. -/
structure DfuHandler (σ : Type) where
  POLL_TIMEOUT : Nat
  CAN_UPLOAD : Bool
  CAN_DOWNLOAD : Bool
  IS_MANIFESTATION_TOLERANT : Bool
  WILL_DETACH : Bool
  DETACH_TIMEOUT : Nat
  TRANSFER_SIZE : Nat
  is_firmware_valid : σ → Bool × σ
  is_transfer_complete : σ → Except Error Bool × σ
  is_manifestation_in_progress : σ → Bool × σ
  poll : σ → Except Error Unit × σ
  upload : Nat → Nat → σ → Except Error (List Nat) × σ
  download : Nat → List Nat → σ → Except Error Unit × σ

/-- Embedding of `DFUModeClass`: the handler state and the FSM state. -/
structure DFUModeClass (σ : Type) where
  handler : σ
  state : State
deriving DecidableEq

/-- An IN control request after the class filter. -/
structure InRequest where
  request : Nat
  value : Nat
  length : Nat
deriving DecidableEq

/-- An OUT control request after the class filter; `wLength` equals
`data.len()` (the USB stack's invariant, asserted in the source). -/
structure OutRequest where
  request : Nat
  value : Nat
  data : List Nat
deriving DecidableEq

/-- Outcome of an IN transfer. -/
inductive InReply
  | accepted (bytes : List Nat)
  | rejected
deriving DecidableEq, Repr

/-- Outcome of an OUT transfer. -/
inductive OutReply
  | accepted
  | rejected
deriving DecidableEq, Repr

/-- Embedding of `DFUModeClass::new`: consult the handler's firmware
validity once and start in `DfuIdle` or `DfuError(Firmware)`. -/
def DFUModeClass.new {σ : Type} (H : DfuHandler σ) (handler : σ) :
    DFUModeClass σ :=
  { handler := (H.is_firmware_valid handler).2
  , state := if (H.is_firmware_valid handler).1 then .DfuIdle
             else .DfuError .Firmware }

/-- Status byte of `accept_get_status`: the error code in `DfuError`,
zero otherwise. -/
def statusByteOf (s : State) : Nat :=
  match s with
  | .DfuError e => e.code
  | _ => 0

/-- Embedding of `accept_get_status`: the 6-byte reply
`[status, timeout.to_le_bytes()[..3], state, iString = 0]`. -/
def getStatusReply (s : State) (poll_timeout : Nat) : List Nat :=
  [statusByteOf s, poll_timeout % 256, poll_timeout / 256 % 256,
    poll_timeout / 65536 % 256, s.code, 0]

section ModeFsm

variable {σ : Type} (H : DfuHandler σ)

/-- Embedding of `accept_get_state`: the single state byte. -/
def acceptGetState (c : DFUModeClass σ) : DFUModeClass σ × InReply :=
  (c, .accepted [c.state.code])

/-- Embedding of `stall_in`: record `StalledPkt` and reject. -/
def stallIn (c : DFUModeClass σ) : DFUModeClass σ × InReply :=
  ({ c with state := .DfuError .StalledPkt }, .rejected)

/-- Embedding of `stall_out`: record `StalledPkt` and reject. -/
def stallOut (c : DFUModeClass σ) : DFUModeClass σ × OutReply :=
  ({ c with state := .DfuError .StalledPkt }, .rejected)

/-- Embedding of `accept_upload`: enter `DfuUploadIdle`, stream from the
handler; a short reply ends the upload in `DfuIdle`; a handler error is
reported as an empty accepted reply with the state in `DfuError`. -/
def acceptUpload (c : DFUModeClass σ) (req : InRequest) :
    DFUModeClass σ × InReply :=
  match H.upload req.value req.length c.handler with
  | (.ok bytes, h1) =>
      if bytes.length < req.length then
        (⟨h1, .DfuIdle⟩, .accepted bytes)
      else
        (⟨h1, .DfuUploadIdle⟩, .accepted bytes)
  | (.error e, h1) => (⟨h1, .DfuError e⟩, .accepted [])

/-- Embedding of `accept_download`: enter `DfuDnloadSync`, hand the block
to the handler, record a handler error in `DfuError`; the transfer itself
is accepted either way. -/
def acceptDownload (c : DFUModeClass σ) (req : OutRequest) :
    DFUModeClass σ × OutReply :=
  match H.download req.value req.data c.handler with
  | (.ok _, h1) => (⟨h1, .DfuDnloadSync⟩, .accepted)
  | (.error e, h1) => (⟨h1, .DfuError e⟩, .accepted)

/-- Embedding of `idle_in`. -/
def idleIn (c : DFUModeClass σ) (req : InRequest) : DFUModeClass σ × InReply :=
  if req.request = Request.DFU_UPLOAD ∧ H.CAN_UPLOAD = true ∧
      req.length ≤ H.TRANSFER_SIZE then
    acceptUpload H c req
  else if req.request = Request.DFU_GETSTATUS then
    (c, .accepted (getStatusReply c.state 1))
  else if req.request = Request.DFU_GETSTATE then
    acceptGetState c
  else
    stallIn c

/-- Embedding of `idle_out`. -/
def idleOut (c : DFUModeClass σ) (req : OutRequest) :
    DFUModeClass σ × OutReply :=
  if req.request = Request.DFU_DNLOAD ∧ H.CAN_DOWNLOAD = true ∧
      req.data.length > 0 then
    acceptDownload H c req
  else if req.request = Request.DFU_ABORT then
    (c, .accepted)
  else
    stallOut c

/-- Embedding of `download_sync_in`: on GETSTATUS, consult the handler's
transfer-completion state and move to `DfuDnloadIdle`, `DfuDnloadBusy`
or `DfuError` before building the status reply. -/
def downloadSyncIn (c : DFUModeClass σ) (req : InRequest) :
    DFUModeClass σ × InReply :=
  if req.request = Request.DFU_GETSTATE then
    acceptGetState c
  else if req.request = Request.DFU_GETSTATUS then
    match H.is_transfer_complete c.handler with
    | (.ok true, h1) =>
        (⟨h1, .DfuDnloadIdle⟩,
          .accepted (getStatusReply .DfuDnloadIdle H.POLL_TIMEOUT))
    | (.ok false, h1) =>
        (⟨h1, .DfuDnloadBusy H.POLL_TIMEOUT⟩,
          .accepted (getStatusReply (.DfuDnloadBusy H.POLL_TIMEOUT) H.POLL_TIMEOUT))
    | (.error e, h1) =>
        (⟨h1, .DfuError e⟩, .accepted (getStatusReply (.DfuError e) H.POLL_TIMEOUT))
  else
    stallIn c

/-- Embedding of `download_idle_in`. -/
def downloadIdleIn (c : DFUModeClass σ) (req : InRequest) :
    DFUModeClass σ × InReply :=
  if req.request = Request.DFU_GETSTATE then
    acceptGetState c
  else if req.request = Request.DFU_GETSTATUS then
    (c, .accepted (getStatusReply c.state H.POLL_TIMEOUT))
  else
    stallIn c

/-- Embedding of `download_idle_out`: a data-bearing DNLOAD behaves as
`accept_download`; the zero-length DNLOAD moves to `DfuManifestSync` when
the handler reports the transfer complete and stalls otherwise. -/
def downloadIdleOut (c : DFUModeClass σ) (req : OutRequest) :
    DFUModeClass σ × OutReply :=
  if req.request = Request.DFU_DNLOAD ∧ req.data.length > 0 then
    match H.download req.value req.data c.handler with
    | (.ok _, h1) => (⟨h1, .DfuDnloadSync⟩, .accepted)
    | (.error e, h1) => (⟨h1, .DfuError e⟩, .accepted)
  else if req.request = Request.DFU_DNLOAD then
    match H.is_transfer_complete c.handler with
    | (.ok true, h1) => (⟨h1, .DfuManifestSync⟩, .accepted)
    | (.ok false, h1) => stallOut ⟨h1, c.state⟩
    | (.error _, h1) => stallOut ⟨h1, c.state⟩
  else
    stallOut c

/-- Embedding of `manifest_sync_in`: the manifestation-progress guard is
re-evaluated by the second match arm (short-circuited by the tolerance
constant), as in the source. -/
def manifestSyncIn (c : DFUModeClass σ) (req : InRequest) :
    DFUModeClass σ × InReply :=
  if req.request = Request.DFU_GETSTATE then
    acceptGetState c
  else if req.request = Request.DFU_GETSTATUS then
    match H.is_manifestation_in_progress c.handler with
    | (true, h1) =>
        (⟨h1, .DfuManifest H.POLL_TIMEOUT⟩,
          .accepted (getStatusReply (.DfuManifest H.POLL_TIMEOUT) H.POLL_TIMEOUT))
    | (false, h1) =>
        if H.IS_MANIFESTATION_TOLERANT then
          match H.is_manifestation_in_progress h1 with
          | (false, h2) =>
              (⟨h2, .DfuIdle⟩, .accepted (getStatusReply .DfuIdle H.POLL_TIMEOUT))
          | (true, h2) => stallIn ⟨h2, c.state⟩
        else
          stallIn ⟨h1, c.state⟩
  else
    stallIn c

/-- Embedding of `upload_in`. -/
def uploadIn (c : DFUModeClass σ) (req : InRequest) :
    DFUModeClass σ × InReply :=
  if req.request = Request.DFU_UPLOAD then
    acceptUpload H c req
  else if req.request = Request.DFU_GETSTATUS then
    (c, .accepted (getStatusReply c.state 1))
  else if req.request = Request.DFU_GETSTATE then
    acceptGetState c
  else
    stallIn c

/-- Embedding of `upload_out`. -/
def uploadOut (c : DFUModeClass σ) (req : OutRequest) :
    DFUModeClass σ × OutReply :=
  if req.request = Request.DFU_ABORT then
    ({ c with state := .DfuIdle }, .accepted)
  else
    stallOut c

/-- Embedding of `error_in`: status and state queries are served, all
other requests are rejected without changing the state. -/
def errorIn (c : DFUModeClass σ) (req : InRequest) :
    DFUModeClass σ × InReply :=
  if req.request = Request.DFU_GETSTATE then
    acceptGetState c
  else if req.request = Request.DFU_GETSTATUS then
    (c, .accepted (getStatusReply c.state 1))
  else
    (c, .rejected)

/-- Embedding of `error_out`: CLRSTATUS returns to `DfuIdle`; everything
else is rejected without changing the state. -/
def errorOut (c : DFUModeClass σ) (req : OutRequest) :
    DFUModeClass σ × OutReply :=
  if req.request = Request.DFU_CLRSTATUS then
    ({ c with state := .DfuIdle }, .accepted)
  else
    (c, .rejected)

/-- Embedding of `control_in` after the class/interface filter: dispatch
on the FSM state; `DfuManifestWaitReset` accepts any IN request with an
empty reply; states without an IN table entry stall. -/
def controlIn (c : DFUModeClass σ) (req : InRequest) :
    DFUModeClass σ × InReply :=
  match c.state with
  | .DfuIdle => idleIn H c req
  | .DfuDnloadSync => downloadSyncIn H c req
  | .DfuDnloadIdle => downloadIdleIn H c req
  | .DfuManifestSync => manifestSyncIn H c req
  | .DfuManifestWaitReset => (c, .accepted [])
  | .DfuUploadIdle => uploadIn H c req
  | .DfuError _ => errorIn c req
  | _ => ({ c with state := .DfuError .StalledPkt }, .rejected)

/-- Embedding of `control_out` after the class/interface filter. -/
def controlOut (c : DFUModeClass σ) (req : OutRequest) :
    DFUModeClass σ × OutReply :=
  match c.state with
  | .DfuIdle => idleOut H c req
  | .DfuDnloadIdle => downloadIdleOut H c req
  | .DfuManifestWaitReset => (c, .accepted)
  | .DfuUploadIdle => uploadOut c req
  | .DfuError _ => errorOut c req
  | _ => ({ c with state := .DfuError .StalledPkt }, .rejected)

end ModeFsm

/-! ## Runtime protocol FSM (usbd-dfu/src/runtime.rs) -/

/-- Handler notifications of the runtime class (`on_detach_request`,
`on_reset`). -/
inductive RuntimeEvent
  | detachRequest (timeout_ms : Nat)
  | resetNotify
deriving DecidableEq, Repr

/-- Embedding of the runtime `control_in` (after the class filter):
GETSTATE replies the state byte; GETSTATUS replies the literal 4-byte
array `[0, 1, state, 0]` of the source; anything else resets the FSM to
`AppIdle` and rejects. -/
def runtimeControlIn (s : State) (req : InRequest) : State × InReply :=
  if req.request = Request.DFU_GETSTATE then
    (s, .accepted [s.code])
  else if req.request = Request.DFU_GETSTATUS then
    (s, .accepted [0, 1, s.code, 0])
  else
    (.AppIdle, .rejected)

/-- Embedding of the runtime `control_out` (after the class filter):
DETACH moves to `AppDetach(wValue)` and fires `on_detach_request`;
anything else resets to `AppIdle` and rejects. -/
def runtimeControlOut (_s : State) (request value : Nat) :
    State × List RuntimeEvent × OutReply :=
  if request = Request.DFU_DETACH then
    (.AppDetach value, [.detachRequest value], .accepted)
  else
    (.AppIdle, [], .rejected)

/-- Embedding of the runtime `poll`: count down an `AppDetach` timeout
(saturating) and return to `AppIdle` when it expires. -/
def runtimePoll (s : State) (elapsed_ms : Nat) : State :=
  match s with
  | .AppDetach remaining =>
      if remaining - elapsed_ms = 0 then .AppIdle
      else .AppDetach (remaining - elapsed_ms)
  | _ => s

/-- A sequence of `poll` ticks. -/
def runtimePollMany (es : List Nat) (s : State) : State :=
  es.foldl runtimePoll s

/-- Embedding of the runtime `reset` callback: `on_reset` fires exactly
from `AppDetach`. -/
def runtimeReset (s : State) : List RuntimeEvent :=
  match s with
  | .AppDetach _ => [.resetNotify]
  | _ => []

/-! ## Claim C2: the GETSTATUS reply -/

/-- C2.  In DFU mode every accepted GETSTATUS reply is the 6-byte record
`{status_code, poll_timeout_low, poll_timeout_mid, poll_timeout_high,
state_code, iString = 0}` with `status_code` zero unless the state is
`DfuError(kind)`, in which case it is the kind's numeric code — shown in
general for the reply builder and at the `DfuIdle` and `DfuError`
dispatch paths.  The runtime class, however, replies to GETSTATUS with
the literal 4-byte array `[0, 1, state, 0]` of runtime.rs — the state
byte sits where the middle poll-timeout byte belongs and the record is
two bytes short, contradicting the claimed (and DFU 1.1 §6.1.2) 6-byte
format. -/
theorem getstatus_reply_record :
    (∀ (st : State) (pt : Nat),
      (getStatusReply st pt).length = 6 ∧
      getStatusReply st pt =
        [statusByteOf st, pt % 256, pt / 256 % 256, pt / 65536 % 256,
          st.code, 0] ∧
      (∀ e, st = .DfuError e → statusByteOf st = e.code) ∧
      ((∀ e, st ≠ .DfuError e) → statusByteOf st = 0)) ∧
    (∀ (σ : Type) (H : DfuHandler σ) (h : σ),
      controlIn H ⟨h, .DfuIdle⟩ ⟨Request.DFU_GETSTATUS, 0, 0⟩ =
        (⟨h, .DfuIdle⟩, .accepted (getStatusReply .DfuIdle 1))) ∧
    (∀ (σ : Type) (H : DfuHandler σ) (h : σ) (e : Error),
      controlIn H ⟨h, .DfuError e⟩ ⟨Request.DFU_GETSTATUS, 0, 0⟩ =
        (⟨h, .DfuError e⟩, .accepted (getStatusReply (.DfuError e) 1))) ∧
    runtimeControlIn .AppIdle ⟨Request.DFU_GETSTATUS, 0, 0⟩ =
      (.AppIdle, .accepted [0, 1, State.AppIdle.code, 0]) ∧
    ([0, 1, State.AppIdle.code, 0] : List Nat).length = 4 := by
  refine ⟨?_, ?_, ?_, by decide, by decide⟩
  · intro st pt
    refine ⟨rfl, rfl, ?_, ?_⟩
    · intro e he
      subst he
      rfl
    · intro hne
      cases st <;> first | rfl | exact absurd rfl (hne _)
  · intro σ H h
    simp [controlIn, idleIn, Request.DFU_GETSTATUS, Request.DFU_UPLOAD]
  · intro σ H h e
    simp [controlIn, errorIn, Request.DFU_GETSTATUS, Request.DFU_GETSTATE]

/-- Witness for C2 at the concrete state `DfuError(Verify)` and timeout
255: the record evaluates to `[7, 255, 0, 0, 10, 0]`. -/
theorem getstatus_reply_record_witness :
    getStatusReply (.DfuError .Verify) 255 = [7, 255, 0, 0, 10, 0] ∧
    statusByteOf (.DfuError .Verify) = Error.Verify.code :=
  ⟨by rw [(getstatus_reply_record.1 (.DfuError .Verify) 255).2.1]; decide,
    (getstatus_reply_record.1 (.DfuError .Verify) 255).2.2.1 .Verify rfl⟩

/-! ## Claim C8: two CLRSTATUS are not one -/

/-- A trivial concrete handler over the unit state, for closed FSM runs. -/
def c8Handler : DfuHandler Unit :=
  { POLL_TIMEOUT := 10
  , CAN_UPLOAD := true
  , CAN_DOWNLOAD := true
  , IS_MANIFESTATION_TOLERANT := true
  , WILL_DETACH := false
  , DETACH_TIMEOUT := 50
  , TRANSFER_SIZE := 128
  , is_firmware_valid := fun s => (true, s)
  , is_transfer_complete := fun s => (.ok true, s)
  , is_manifestation_in_progress := fun s => (false, s)
  , poll := fun s => (.ok (), s)
  , upload := fun _ _ s => (.ok [], s)
  , download := fun _ _ s => (.ok (), s) }

/-- The CLRSTATUS request. -/
def clrStatusReq : OutRequest := ⟨Request.DFU_CLRSTATUS, 0, []⟩

/-- Counterexample to C8 as stated: from `DfuError(Verify)`, one
CLRSTATUS ends in `DfuIdle` (accepted), but a second CLRSTATUS is a
protocol violation in `DfuIdle` — it stalls, leaving
`DfuError(StalledPkt)` — so two consecutive CLRSTATUS are not equivalent
to one. -/
theorem two_clrstatus_claim_false :
    (controlOut c8Handler ⟨(), .DfuError .Verify⟩ clrStatusReq).1.state =
      State.DfuIdle ∧
    (controlOut c8Handler ⟨(), .DfuError .Verify⟩ clrStatusReq).2 =
      .accepted ∧
    (controlOut c8Handler
        (controlOut c8Handler ⟨(), .DfuError .Verify⟩ clrStatusReq).1
        clrStatusReq).1.state = State.DfuError .StalledPkt ∧
    (controlOut c8Handler
        (controlOut c8Handler ⟨(), .DfuError .Verify⟩ clrStatusReq).1
        clrStatusReq).2 = .rejected ∧
    State.DfuError .StalledPkt ≠ State.DfuIdle := by
  refine ⟨rfl, rfl, rfl, rfl, by decide⟩

/-- C8 as amended.  For every handler and every error kind, the first
CLRSTATUS from `DfuError` is accepted and returns the FSM to `DfuIdle`;
a second CLRSTATUS is then rejected as a protocol violation (CLRSTATUS is
legal only in `DfuError`) and leaves the FSM in `DfuError(StalledPkt)`. -/
theorem two_clrstatus_stalls {σ : Type} (H : DfuHandler σ) (h : σ) (e : Error) :
    controlOut H ⟨h, .DfuError e⟩ clrStatusReq = (⟨h, .DfuIdle⟩, .accepted) ∧
    controlOut H ⟨h, .DfuIdle⟩ clrStatusReq =
      (⟨h, .DfuError .StalledPkt⟩, .rejected) := by
  constructor
  · simp [controlOut, errorOut, clrStatusReq]
  · simp [controlOut, idleOut, clrStatusReq, stallOut, Request.DFU_CLRSTATUS,
      Request.DFU_DNLOAD, Request.DFU_ABORT]

/-! ## Claim C10: the initial state of the DFU-mode class -/

/-- Instrumentation of a handler that counts the `is_firmware_valid`
calls alongside the handler state. -/
def countingHandler {σ : Type} (H : DfuHandler σ) : DfuHandler (σ × Nat) :=
  { POLL_TIMEOUT := H.POLL_TIMEOUT
  , CAN_UPLOAD := H.CAN_UPLOAD
  , CAN_DOWNLOAD := H.CAN_DOWNLOAD
  , IS_MANIFESTATION_TOLERANT := H.IS_MANIFESTATION_TOLERANT
  , WILL_DETACH := H.WILL_DETACH
  , DETACH_TIMEOUT := H.DETACH_TIMEOUT
  , TRANSFER_SIZE := H.TRANSFER_SIZE
  , is_firmware_valid := fun s =>
      ((H.is_firmware_valid s.1).1, ((H.is_firmware_valid s.1).2, s.2 + 1))
  , is_transfer_complete := fun s =>
      ((H.is_transfer_complete s.1).1, ((H.is_transfer_complete s.1).2, s.2))
  , is_manifestation_in_progress := fun s =>
      ((H.is_manifestation_in_progress s.1).1,
        ((H.is_manifestation_in_progress s.1).2, s.2))
  , poll := fun s => ((H.poll s.1).1, ((H.poll s.1).2, s.2))
  , upload := fun bn len s =>
      ((H.upload bn len s.1).1, ((H.upload bn len s.1).2, s.2))
  , download := fun bn buf s =>
      ((H.download bn buf s.1).1, ((H.download bn buf s.1).2, s.2)) }

/-- C10.  Constructing the DFU-mode class consults the handler's
`is_firmware_valid` exactly once (shown by the counting instrumentation)
and sets the initial FSM state to `DfuIdle` when it returned true and
`DfuError(Firmware)` when it returned false; no other initial state is
possible. -/
theorem mode_class_initial_state {σ : Type} (H : DfuHandler σ) (h : σ) :
    ((DFUModeClass.new H h).state =
      if (H.is_firmware_valid h).1 then State.DfuIdle
      else State.DfuError .Firmware) ∧
    (DFUModeClass.new H h).handler = (H.is_firmware_valid h).2 ∧
    ((DFUModeClass.new H h).state = State.DfuIdle ∨
      (DFUModeClass.new H h).state = State.DfuError .Firmware) ∧
    (DFUModeClass.new (countingHandler H) (h, 0)).handler.2 = 1 := by
  refine ⟨rfl, rfl, ?_, rfl⟩
  by_cases hb : (H.is_firmware_valid h).1 <;>
    simp [DFUModeClass.new, hb]

/-! ## Claim C9: the runtime DETACH / timeout behaviour -/

/-- A runtime state is one the runtime FSM uses: `AppIdle` or
`AppDetach`. -/
def isRuntimeState (s : State) : Prop :=
  s = .AppIdle ∨ ∃ u, s = .AppDetach u

theorem runtimePollMany_appIdle (es : List Nat) :
    runtimePollMany es .AppIdle = .AppIdle := by
  induction es with
  | nil => rfl
  | cons e es ih => simpa [runtimePollMany, runtimePoll] using ih

theorem runtimePollMany_expire (t : Nat) (es : List Nat) (hne : es ≠ [])
    (hsum : t ≤ es.sum) : runtimePollMany es (.AppDetach t) = .AppIdle := by
  induction es generalizing t with
  | nil => exact absurd rfl hne
  | cons e es ih =>
      show runtimePollMany es (runtimePoll (.AppDetach t) e) = .AppIdle
      simp only [runtimePoll]
      by_cases hz : t - e = 0
      · rw [if_pos hz]
        exact runtimePollMany_appIdle es
      · rw [if_neg hz]
        rcases es with _ | ⟨f, fs⟩
        · have hsum1 : t ≤ e := by simpa using hsum
          exact absurd (by omega : t - e = 0) hz
        · refine ih (t - e) (List.cons_ne_nil f fs) ?_
          have hsum2 : (e :: f :: fs).sum = e + (f :: fs).sum := List.sum_cons
          omega

/-- C9.  In the runtime FSM, DETACH with `wValue = t` received in
`AppIdle` moves the state to `AppDetach(t)` and fires
`on_detach_request(t)`; if subsequent poll ticks accumulate at least `t`
milliseconds (with no USB reset), the state returns to `AppIdle`; and
every runtime operation (control in, control out, poll) keeps the state
inside `{AppIdle, AppDetach}`. -/
theorem runtime_detach_behaviour :
    (∀ t : Nat, runtimeControlOut .AppIdle Request.DFU_DETACH t =
      (.AppDetach t, [.detachRequest t], .accepted)) ∧
    (∀ (t : Nat) (es : List Nat), es ≠ [] → t ≤ es.sum →
      runtimePollMany es (.AppDetach t) = .AppIdle) ∧
    (∀ s, isRuntimeState s →
      (∀ rq v, isRuntimeState (runtimeControlOut s rq v).1) ∧
      (∀ req, isRuntimeState (runtimeControlIn s req).1) ∧
      (∀ e, isRuntimeState (runtimePoll s e))) := by
  refine ⟨fun t => rfl, runtimePollMany_expire, ?_⟩
  intro s hs
  refine ⟨?_, ?_, ?_⟩
  · intro rq v
    unfold runtimeControlOut
    split_ifs
    · exact .inr ⟨v, rfl⟩
    · exact .inl rfl
  · intro req
    unfold runtimeControlIn
    split_ifs
    · exact hs
    · exact hs
    · exact .inl rfl
  · intro e
    rcases hs with hs | ⟨u, hs⟩ <;> subst hs
    · exact .inl rfl
    · simp only [runtimePoll]
      split_ifs
      · exact .inl rfl
      · exact .inr ⟨_, rfl⟩

/-- Witness for C9: DETACH(500) in `AppIdle`, then a 600 ms tick with no
reset, ends in `AppIdle`. -/
theorem runtime_detach_behaviour_witness :
    runtimeControlOut .AppIdle Request.DFU_DETACH 500 =
      (.AppDetach 500, [.detachRequest 500], .accepted) ∧
    runtimePollMany [600] (.AppDetach 500) = .AppIdle ∧
    isRuntimeState (runtimePoll .AppIdle 1) :=
  ⟨runtime_detach_behaviour.1 500,
    runtime_detach_behaviour.2.1 500 [600] (by simp) (by norm_num),
    (runtime_detach_behaviour.2.2 .AppIdle (.inl rfl)).2.2 1⟩

/-! ## Claim C6: the Address error path -/

/-- A concrete handler whose download fails with `Address`, as the
driver's does once `addr` reaches the manifest slot. -/
def c6Handler : DfuHandler Unit :=
  { c8Handler with download := fun _ _ s => (.error .Address, s) }

/-- C6.  During the download phase, an attempt to program at an address
at or beyond `manifest_start` fails with the `Address` error
(`erase_or_program`, independent of the rest of the arguments); the
driver's `download` then moves the handler to its `Error` state; at the
FSM level a failing DNLOAD in `DfuDnloadIdle` moves the FSM to
`DfuError(Address)` while accepting the transfer; the next GETSTATUS
there reports the `Address` status code; and CLRSTATUS returns the FSM
to `DfuIdle`. -/
theorem address_overrun_error :
    (∀ (memory : Memory) (addr cs : Nat) (data : List Nat) (dl wr : Nat),
      addr ≥ MANIFEST_REGION_START →
      Program.eraseOrProgram memory addr cs data dl wr =
        some (.error .Address)) ∧
    (∀ (impl : DFUModeImpl) (p : Program) (buf : List Nat),
      impl.state = .Download p → p.state = .AwaitData →
      p.addr ≥ MANIFEST_REGION_START → buf.length ≤ TRANSFER_SIZE →
      impl.download 0 buf =
        some (.error .Address, { impl with state := .Error })) ∧
    (∀ (σ : Type) (H : DfuHandler σ) (h h1 : σ) (bn : Nat) (buf : List Nat),
      buf.length > 0 → H.download bn buf h = (.error .Address, h1) →
      controlOut H ⟨h, .DfuDnloadIdle⟩ ⟨Request.DFU_DNLOAD, bn, buf⟩ =
        (⟨h1, .DfuError .Address⟩, .accepted)) ∧
    (∀ (σ : Type) (H : DfuHandler σ) (h : σ),
      controlIn H ⟨h, .DfuError .Address⟩ ⟨Request.DFU_GETSTATUS, 0, 0⟩ =
        (⟨h, .DfuError .Address⟩,
          .accepted [Error.Address.code, 1, 0, 0, 10, 0])) ∧
    (∀ (σ : Type) (H : DfuHandler σ) (h : σ),
      controlOut H ⟨h, .DfuError .Address⟩ ⟨Request.DFU_CLRSTATUS, 0, []⟩ =
        (⟨h, .DfuIdle⟩, .accepted)) := by
  refine ⟨?_, ?_, ?_, ?_, ?_⟩
  · intro memory addr cs data dl wr haddr
    unfold Program.eraseOrProgram
    rw [if_pos haddr]
  · intro impl p buf hst hps haddr hlen
    have hupd : Program.update p impl.memory buf = some (.error .Address) := by
      unfold Program.update
      rw [hps]
      rw [if_neg (by omega)]
      have heop : Program.eraseOrProgram impl.memory p.addr p.current_sector
          (padTransfer buf) buf.length 0 = some (.error .Address) := by
        unfold Program.eraseOrProgram
        rw [if_pos haddr]
      rw [heop]
    unfold DFUModeImpl.download
    rw [hst]
    dsimp only
    rw [hupd]
  · intro σ H h h1 bn buf hlen hdl
    unfold controlOut downloadIdleOut
    rw [if_pos ⟨rfl, hlen⟩, hdl]
  · intro σ H h
    unfold controlIn errorIn
    rw [if_neg (by decide), if_pos rfl]
    rfl
  · intro σ H h
    unfold controlOut errorOut
    rw [if_pos rfl]

/-- Witness for C6: a driver state parked at the manifest slot and the
concrete `Address`-failing handler. -/
theorem address_overrun_error_witness :
    Program.eraseOrProgram ⟨dirtyMem, .Idle⟩ MANIFEST_REGION_START 7 [] 0 0 =
      some (.error .Address) ∧
    DFUModeImpl.download
      ⟨.Download ⟨7, MANIFEST_REGION_START, .AwaitData⟩, ⟨dirtyMem, .Idle⟩, false⟩
      0 [1] =
      some (.error .Address,
        ⟨.Error, ⟨dirtyMem, .Idle⟩, false⟩) ∧
    controlOut c6Handler ⟨(), .DfuDnloadIdle⟩ ⟨Request.DFU_DNLOAD, 0, [1]⟩ =
      (⟨(), .DfuError .Address⟩, .accepted) ∧
    controlIn c6Handler ⟨(), .DfuError .Address⟩ ⟨Request.DFU_GETSTATUS, 0, 0⟩ =
      (⟨(), .DfuError .Address⟩,
        .accepted [Error.Address.code, 1, 0, 0, 10, 0]) ∧
    controlOut c6Handler ⟨(), .DfuError .Address⟩ ⟨Request.DFU_CLRSTATUS, 0, []⟩ =
      (⟨(), .DfuIdle⟩, .accepted) :=
  ⟨address_overrun_error.1 ⟨dirtyMem, .Idle⟩ MANIFEST_REGION_START 7 [] 0 0
      (le_refl _),
    address_overrun_error.2.1
      ⟨.Download ⟨7, MANIFEST_REGION_START, .AwaitData⟩, ⟨dirtyMem, .Idle⟩, false⟩
      ⟨7, MANIFEST_REGION_START, .AwaitData⟩ [1] rfl rfl (le_refl _) (by decide),
    address_overrun_error.2.2.1 Unit c6Handler () () 0 [1] (by decide) rfl,
    address_overrun_error.2.2.2.1 Unit c6Handler (),
    address_overrun_error.2.2.2.2 Unit c6Handler ()⟩

/-! ## Claim C5 (amended): the driver invariant and its preservation -/

theorem AS_value : APPLICATION_REGION_START = 134250496 := by
  norm_num [APPLICATION_REGION_START]

theorem MS_value : MANIFEST_REGION_START = 134741888 := by
  norm_num [MANIFEST_REGION_START, FLASH_END, MANIFEST_SIZE_ALIGNED,
    MANIFEST_SIZE, HASH_LENGTH]

/-- Invariant of a `Program` paired with the engine state: the write
cursor never passes the block length, the address cursor starts at or
after `application_start`, stays at or below `manifest_start` throughout
the download phase, and travels in lock-step with the manifest write
cursor (so at most `manifest_start + 24`) during manifest programming;
the engine state matches the driver sub-state, with the programmed width
bounded by the bytes remaining. -/
def ProgInv (p : Program) (m : Memory) : Prop :=
  APPLICATION_REGION_START ≤ p.addr ∧
  match p.state with
  | .AwaitData => p.addr ≤ MANIFEST_REGION_START
  | .AwaitEraseBeforeProgram data data_len wr_ptr =>
      wr_ptr ≤ data_len ∧ data_len ≤ data.length ∧
      p.addr < MANIFEST_REGION_START ∧ ∃ s, m.state = .Erasing s
  | .AwaitProgram data data_len wr_ptr =>
      wr_ptr ≤ data_len ∧ data_len ≤ data.length ∧
      p.addr < MANIFEST_REGION_START ∧
      ∃ src, m.state = .Programming p.addr
          (toWrite p.addr (data_len - wr_ptr)) src ∧
        toWrite p.addr (data_len - wr_ptr) ≤ data_len - wr_ptr
  | .AwaitErase =>
      p.addr ≤ MANIFEST_REGION_START ∧ ∃ s, m.state = .Erasing s
  | .AwaitProgramManifest data wr_ptr =>
      data.length = MANIFEST_SIZE ∧ wr_ptr ≤ data.length ∧
      p.addr = MANIFEST_REGION_START + wr_ptr ∧
      (wr_ptr < data.length →
        ∃ src, m.state = .Programming p.addr
            (toWrite p.addr (data.length - wr_ptr)) src ∧
          toWrite p.addr (data.length - wr_ptr) ≤ data.length - wr_ptr)
  | .Done => p.addr = MANIFEST_REGION_START + MANIFEST_SIZE

theorem sliceLen (data : List Nat) (dl wr : Nat) (hdl : dl ≤ data.length) :
    ((data.take dl).drop wr).length = dl - wr := by
  simp only [List.length_drop, List.length_take]
  omega

/-- Alignment bound: a word programmed strictly below `manifest_start`
never ends past it, because `manifest_start` is word-aligned and the
width is forced down to the alignment of the address. -/
theorem toWrite_le_gap (addr L : Nat) (h : addr < MANIFEST_REGION_START) :
    addr + toWrite addr L ≤ MANIFEST_REGION_START := by
  have h1 := and_one addr
  have h2 := and_two_eq_two_iff addr
  have hMS := MS_value
  have hmin : min L 4 ≤ 4 := min_le_right L 4
  simp only [toWrite, h1, h2]
  split_ifs <;> omega

theorem program_some_inv (m : Memory) (addr : Nat) (src : List Nat) (m2 : Memory)
    (h : Memory.program m addr src = some m2) :
    m2.state = .Programming addr (toWrite addr src.length)
      (src.take (toWrite addr src.length)) ∧
    toWrite addr src.length ≤ src.length := by
  unfold Memory.program at h
  split_ifs at h with hg
  cases h
  exact ⟨rfl, hg.1⟩

theorem poll_programming (m : Memory) (a w : Nat) (src : List Nat)
    (hs : m.state = .Programming a w src) :
    Memory.poll m =
      if readBytes a w m.mem = src then
        ({ m with state := .Idle }, .ready (.ok w))
      else
        ({ m with state := .Idle }, .ready (.error .Verify)) := by
  unfold Memory.poll
  rw [hs]

theorem poll_erasing (m : Memory) (s : Nat) (hs : m.state = .Erasing s) :
    Memory.poll m =
      if Sector.isErased s m.mem then
        ({ m with state := .Idle }, .ready (.ok 0))
      else
        ({ m with state := .Idle }, .ready (.error .CheckErased)) := by
  unfold Memory.poll
  rw [hs]

theorem eraseOrProgram_ok_inv (memory : Memory) (addr cs : Nat)
    (data : List Nat) (dl wr : Nat) (st : ProgramState) (cs1 : Nat) (m1 : Memory)
    (hwr : wr ≤ dl) (hdl : dl ≤ data.length)
    (hAS : APPLICATION_REGION_START ≤ addr)
    (h : Program.eraseOrProgram memory addr cs data dl wr =
      some (.ok (st, cs1, m1))) :
    ProgInv ⟨cs1, addr, st⟩ m1 := by
  unfold Program.eraseOrProgram at h
  by_cases haddr : addr ≥ MANIFEST_REGION_START
  · rw [if_pos haddr] at h
    simp at h
  · rw [if_neg haddr] at h
    cases htf : Sector.tryFrom addr with
    | none =>
        rw [htf] at h
        simp at h
    | some sector =>
        rw [htf] at h
        simp only [] at h
        by_cases hcs : sector ≠ cs
        · rw [if_pos hcs] at h
          simp only [Option.some.injEq, Except.ok.injEq, Prod.mk.injEq] at h
          obtain ⟨hst, hcs1, hm1⟩ := h
          subst hst
          subst hcs1
          subst hm1
          have hlt : addr < MANIFEST_REGION_START := by omega
          exact ⟨hAS, hwr, hdl, hlt, sector, rfl⟩
        · rw [if_neg hcs, if_pos ⟨hwr, hdl⟩] at h
          cases hmp : Memory.program memory addr ((data.take dl).drop wr) with
          | none =>
              rw [hmp] at h
              simp at h
          | some m2 =>
              rw [hmp] at h
              simp only [Option.some.injEq, Except.ok.injEq, Prod.mk.injEq] at h
              obtain ⟨hst, hcs1, hm1⟩ := h
              subst hst
              subst hcs1
              subst hm1
              have hpi := program_some_inv memory addr _ m2 hmp
              rw [sliceLen data dl wr hdl] at hpi
              have hlt : addr < MANIFEST_REGION_START := by omega
              exact ⟨hAS, hwr, hdl, hlt, _, hpi.1, hpi.2⟩

theorem progInv_new (m : Memory) (buf : List Nat) (p : Program) (m1 : Memory)
    (h : Program.new m buf = some (.ok (p, m1))) : ProgInv p m1 := by
  unfold Program.new at h
  split_ifs at h with hge hbig
  · exact Except.noConfusion (Option.some.inj h)
  rw [show Sector.tryFrom APPLICATION_REGION_START = some 2 by decide] at h
  simp only [] at h
  simp only [Option.some.injEq, Except.ok.injEq, Prod.mk.injEq] at h
  obtain ⟨hp, hm⟩ := h
  subst hp
  subst hm
  refine ⟨le_refl _, Nat.zero_le _, ?_, ?_, 2, rfl⟩
  · simp [padTransfer]
  · rw [AS_value, MS_value]
    norm_num

theorem eraseOrProgramManifest_inv (p : Program) (m : Memory) (q : Program)
    (m2 : Memory) (r : Polled (Except Error Unit))
    (hAS : APPLICATION_REGION_START ≤ p.addr)
    (haddr : p.addr ≤ MANIFEST_REGION_START)
    (h : Program.eraseOrProgramManifest p m = some (q, m2, r)) :
    ProgInv q m2 := by
  unfold Program.eraseOrProgramManifest at h
  cases hn : Sector.next p.current_sector with
  | some s =>
      rw [hn] at h
      simp only [] at h
      simp only [Option.some.injEq, Prod.mk.injEq] at h
      obtain ⟨hq, hm2, hr⟩ := h
      subst hq
      subst hm2
      exact ⟨hAS, haddr, s, rfl⟩
  | none =>
      rw [hn] at h
      simp only [] at h
      cases hmp : Memory.program m MANIFEST_REGION_START
          (serializeManifest (p.addr - APPLICATION_REGION_START)
            (computeHash (readBytes APPLICATION_REGION_START
              (min APPLICATION_LENGTH (p.addr - APPLICATION_REGION_START))
              m.mem))) with
      | none =>
          rw [hmp] at h
          simp at h
      | some m3 =>
          rw [hmp] at h
          simp only [] at h
          simp only [Option.some.injEq, Prod.mk.injEq] at h
          obtain ⟨hq, hm2, hr⟩ := h
          subst hq
          subst hm2
          have hlen : (serializeManifest (p.addr - APPLICATION_REGION_START)
              (computeHash (readBytes APPLICATION_REGION_START
                (min APPLICATION_LENGTH (p.addr - APPLICATION_REGION_START))
                m.mem))).length = MANIFEST_SIZE :=
            length_serializeManifest _ _ (length_computeHash _)
          have hpi := program_some_inv m MANIFEST_REGION_START _ m3 hmp
          have hASMS : APPLICATION_REGION_START ≤ MANIFEST_REGION_START := by
            rw [AS_value, MS_value]
            norm_num
          refine ⟨hASMS, hlen, Nat.zero_le _,
            (by omega : MANIFEST_REGION_START = MANIFEST_REGION_START + 0), ?_⟩
          intro hlt
          rw [Nat.sub_zero]
          exact ⟨_, hpi.1, hpi.2⟩

theorem progInv_update (p : Program) (m : Memory) (buf : List Nat)
    (p1 : Program) (m1 : Memory) (hInv : ProgInv p m)
    (h : Program.update p m buf = some (.ok (p1, m1))) : ProgInv p1 m1 := by
  unfold Program.update at h
  cases hps : p.state with
  | AwaitData =>
      rw [hps] at h
      simp only [] at h
      split_ifs at h with hbig
      cases heop : Program.eraseOrProgram m p.addr p.current_sector
          (padTransfer buf) buf.length 0 with
      | none =>
          rw [heop] at h
          simp at h
      | some res =>
          rw [heop] at h
          cases res with
          | error e =>
              simp only [] at h
              exact Except.noConfusion (Option.some.inj h)
          | ok v =>
              obtain ⟨st, cs1, m2⟩ := v
              simp only [Option.some.injEq, Except.ok.injEq, Prod.mk.injEq] at h
              obtain ⟨hp1, hm1⟩ := h
              subst hp1
              subst hm1
              have hgoal := eraseOrProgram_ok_inv m p.addr p.current_sector
                (padTransfer buf) buf.length 0 st cs1 m2 (Nat.zero_le _)
                (by simp [padTransfer]) hInv.1 heop
              exact hgoal
  | AwaitEraseBeforeProgram data dl wr =>
      rw [hps] at h
      exact Except.noConfusion (Option.some.inj h)
  | AwaitProgram data dl wr =>
      rw [hps] at h
      exact Except.noConfusion (Option.some.inj h)
  | AwaitErase =>
      rw [hps] at h
      exact Except.noConfusion (Option.some.inj h)
  | AwaitProgramManifest data wr =>
      rw [hps] at h
      exact Except.noConfusion (Option.some.inj h)
  | Done =>
      rw [hps] at h
      exact Except.noConfusion (Option.some.inj h)

theorem progInv_finalize (p : Program) (m : Memory) (p1 : Program) (m1 : Memory)
    (hInv : ProgInv p m)
    (h : Program.finalize p m = some (.ok (p1, m1))) : ProgInv p1 m1 := by
  obtain ⟨hAS, hst⟩ := hInv
  unfold Program.finalize at h
  cases hps : p.state with
  | AwaitData =>
      rw [hps] at h
      simp only [] at h
      rw [hps] at hst
      cases hm : Program.eraseOrProgramManifest p m with
      | none =>
          rw [hm] at h
          simp at h
      | some res =>
          obtain ⟨q, m2, r⟩ := res
          rw [hm] at h
          cases r with
          | pending =>
              simp only [Option.some.injEq, Except.ok.injEq, Prod.mk.injEq] at h
              obtain ⟨hq, hm1⟩ := h
              rw [← hq, ← hm1]
              exact eraseOrProgramManifest_inv p m q m2 _ hAS hst hm
          | ready val =>
              cases val with
              | ok u => simp at h
              | error e =>
                  simp only [] at h
                  exact Except.noConfusion (Option.some.inj h)
  | AwaitEraseBeforeProgram data dl wr =>
      rw [hps] at h
      exact Except.noConfusion (Option.some.inj h)
  | AwaitProgram data dl wr =>
      rw [hps] at h
      exact Except.noConfusion (Option.some.inj h)
  | AwaitErase =>
      rw [hps] at h
      exact Except.noConfusion (Option.some.inj h)
  | AwaitProgramManifest data wr =>
      rw [hps] at h
      exact Except.noConfusion (Option.some.inj h)
  | Done =>
      rw [hps] at h
      exact Except.noConfusion (Option.some.inj h)

theorem progInv_poll (p : Program) (m : Memory) (p1 : Program) (m1 : Memory)
    (r : Polled (Except Error Unit)) (hInv : ProgInv p m)
    (h : Program.poll p m = some (p1, m1, r))
    (hr : r = .pending ∨ r = .ready (.ok ())) : ProgInv p1 m1 := by
  obtain ⟨hAS, hst⟩ := hInv
  unfold Program.poll at h
  cases hps : p.state with
  | AwaitData =>
      rw [hps] at h
      simp only [Option.some.injEq, Prod.mk.injEq] at h
      obtain ⟨hp1, hm1, _⟩ := h
      rw [← hp1, ← hm1]
      exact ⟨hAS, hps ▸ hst⟩
  | AwaitEraseBeforeProgram data dl wr =>
      rw [hps] at h
      rw [hps] at hst
      obtain ⟨hwr, hdl, hlt, s, hms⟩ := hst
      rw [poll_erasing m s hms] at h
      by_cases herase : Sector.isErased s m.mem
      · rw [if_pos herase] at h
        simp only [] at h
        rw [if_pos ⟨hwr, hdl⟩] at h
        cases hmp : Memory.program { m with state := .Idle } p.addr
            ((data.take dl).drop wr) with
        | none =>
            rw [hmp] at h
            simp at h
        | some m2 =>
            rw [hmp] at h
            simp only [Option.some.injEq, Prod.mk.injEq] at h
            obtain ⟨hp1, hm1, _⟩ := h
            rw [← hp1, ← hm1]
            have hpi := program_some_inv _ _ _ m2 hmp
            rw [sliceLen data dl wr hdl] at hpi
            exact ⟨hAS, hwr, hdl, hlt, _, hpi.1, hpi.2⟩
      · rw [if_neg herase] at h
        simp only [Option.some.injEq, Prod.mk.injEq] at h
        obtain ⟨_, _, hrr⟩ := h
        rw [← hrr] at hr
        simp at hr
  | AwaitProgram data dl wr =>
      rw [hps] at h
      rw [hps] at hst
      obtain ⟨hwr, hdl, hlt, src, hms, hwle⟩ := hst
      rw [poll_programming m p.addr _ src hms] at h
      by_cases hver : readBytes p.addr (toWrite p.addr (dl - wr)) m.mem = src
      · rw [if_pos hver] at h
        simp only [] at h
        have hwdl : wr + toWrite p.addr (dl - wr) ≤ dl := by omega
        rw [if_pos hwdl] at h
        by_cases heq : wr + toWrite p.addr (dl - wr) = dl
        · rw [if_pos heq] at h
          simp only [Option.some.injEq, Prod.mk.injEq] at h
          obtain ⟨hp1, hm1, _⟩ := h
          rw [← hp1, ← hm1]
          refine ⟨(show APPLICATION_REGION_START ≤
            p.addr + toWrite p.addr (dl - wr) by omega), ?_⟩
          show p.addr + toWrite p.addr (dl - wr) ≤ MANIFEST_REGION_START
          exact toWrite_le_gap p.addr (dl - wr) hlt
        · rw [if_neg heq] at h
          cases heop : Program.eraseOrProgram { m with state := .Idle }
              (p.addr + toWrite p.addr (dl - wr)) p.current_sector data dl
              (wr + toWrite p.addr (dl - wr)) with
          | none =>
              rw [heop] at h
              simp at h
          | some res =>
              rw [heop] at h
              cases res with
              | error e =>
                  simp only [Option.some.injEq, Prod.mk.injEq] at h
                  obtain ⟨_, _, hrr⟩ := h
                  rw [← hrr] at hr
                  simp at hr
              | ok v =>
                  obtain ⟨st, cs1, m2⟩ := v
                  simp only [Option.some.injEq, Prod.mk.injEq] at h
                  obtain ⟨hp1, hm1, _⟩ := h
                  rw [← hp1, ← hm1]
                  exact eraseOrProgram_ok_inv _ _ _ data dl _ st cs1 m2
                    (by omega) hdl (by omega) heop
      · rw [if_neg hver] at h
        simp only [Option.some.injEq, Prod.mk.injEq] at h
        obtain ⟨_, _, hrr⟩ := h
        rw [← hrr] at hr
        simp at hr
  | AwaitErase =>
      rw [hps] at h
      rw [hps] at hst
      obtain ⟨hle, s, hms⟩ := hst
      rw [poll_erasing m s hms] at h
      by_cases herase : Sector.isErased s m.mem
      · rw [if_pos herase] at h
        simp only [] at h
        exact eraseOrProgramManifest_inv p { m with state := .Idle } p1 m1 r
          hAS hle h
      · rw [if_neg herase] at h
        simp only [Option.some.injEq, Prod.mk.injEq] at h
        obtain ⟨_, _, hrr⟩ := h
        rw [← hrr] at hr
        simp at hr
  | AwaitProgramManifest data wr =>
      rw [hps] at h
      rw [hps] at hst
      obtain ⟨hlen, hwr, haddr, hlink⟩ := hst
      by_cases hwlt : wr < data.length
      · obtain ⟨src, hms, hwle⟩ := hlink hwlt
        rw [poll_programming m p.addr _ src hms] at h
        by_cases hver : readBytes p.addr (toWrite p.addr (data.length - wr))
            m.mem = src
        · rw [if_pos hver] at h
          simp only [] at h
          have hwdl : wr + toWrite p.addr (data.length - wr) ≤ data.length := by
            omega
          rw [if_pos hwdl] at h
          by_cases heq : wr + toWrite p.addr (data.length - wr) = data.length
          · rw [if_pos heq] at h
            simp only [Option.some.injEq, Prod.mk.injEq] at h
            obtain ⟨hp1, hm1, _⟩ := h
            rw [← hp1, ← hm1]
            refine ⟨(show APPLICATION_REGION_START ≤
              p.addr + toWrite p.addr (data.length - wr) by omega), ?_⟩
            show p.addr + toWrite p.addr (data.length - wr) =
              MANIFEST_REGION_START + MANIFEST_SIZE
            omega
          · rw [if_neg heq] at h
            cases hmp : Memory.program { m with state := .Idle }
                (p.addr + toWrite p.addr (data.length - wr))
                (data.drop (wr + toWrite p.addr (data.length - wr))) with
            | none =>
                rw [hmp] at h
                simp at h
            | some m2 =>
                rw [hmp] at h
                simp only [Option.some.injEq, Prod.mk.injEq] at h
                obtain ⟨hp1, hm1, _⟩ := h
                rw [← hp1, ← hm1]
                have hpi := program_some_inv _ _ _ m2 hmp
                rw [List.length_drop] at hpi
                refine ⟨(show APPLICATION_REGION_START ≤
                    p.addr + toWrite p.addr (data.length - wr) by omega),
                  hlen,
                  (show wr + toWrite p.addr (data.length - wr) ≤ data.length
                    by omega),
                  (show p.addr + toWrite p.addr (data.length - wr) =
                    MANIFEST_REGION_START + (wr + toWrite p.addr (data.length - wr))
                    by omega), ?_⟩
                intro hlt2
                exact ⟨_, hpi.1, hpi.2⟩
        · rw [if_neg hver] at h
          simp only [Option.some.injEq, Prod.mk.injEq] at h
          obtain ⟨_, _, hrr⟩ := h
          rw [← hrr] at hr
          simp at hr
      · cases hmpoll : Memory.poll m with
        | mk mm rr =>
            rw [hmpoll] at h
            cases rr with
            | pending =>
                simp only [Option.some.injEq, Prod.mk.injEq] at h
                obtain ⟨hp1, hm1, _⟩ := h
                rw [← hp1, ← hm1]
                unfold ProgInv
                rw [hps]
                exact ⟨hAS, hlen, hwr, haddr, fun hc => absurd hc hwlt⟩
            | ready val =>
                cases val with
                | error e =>
                    simp only [Option.some.injEq, Prod.mk.injEq] at h
                    obtain ⟨_, _, hrr⟩ := h
                    rw [← hrr] at hr
                    simp at hr
                | ok n =>
                    simp only [] at h
                    by_cases hn : wr + n ≤ data.length
                    · rw [if_pos hn] at h
                      rw [if_pos (by omega)] at h
                      simp only [Option.some.injEq, Prod.mk.injEq] at h
                      obtain ⟨hp1, hm1, _⟩ := h
                      rw [← hp1, ← hm1]
                      refine ⟨(show APPLICATION_REGION_START ≤ p.addr + n
                        by omega), ?_⟩
                      show p.addr + n = MANIFEST_REGION_START + MANIFEST_SIZE
                      omega
                    · rw [if_neg hn] at h
                      simp at h
  | Done =>
      rw [hps] at h
      rw [hps] at hst
      cases hmpoll : Memory.poll m with
      | mk mm rr =>
          rw [hmpoll] at h
          cases rr with
          | pending =>
              simp only [Option.some.injEq, Prod.mk.injEq] at h
              obtain ⟨hp1, hm1, _⟩ := h
              rw [← hp1, ← hm1]
              unfold ProgInv
              rw [hps]
              exact ⟨hAS, hst⟩
          | ready val =>
              cases val with
              | error e =>
                  simp only [Option.some.injEq, Prod.mk.injEq] at h
                  obtain ⟨_, _, hrr⟩ := h
                  rw [← hrr] at hr
                  simp at hr
              | ok n =>
                  simp at h

/-- C5 as amended.  `Program::new` establishes the driver invariant and
every driver operation (`update`/download, `poll`, `finalize`) preserves
it, for every run that does not panic or abandon the program with an
error (on an engine error the caller discards the `Program` for the
`Error` state).  The invariant yields the claim's amended bounds:
`wr_ptr ≤ data_len` always, `application_start ≤ addr` always,
`addr ≤ manifest_start` throughout the download phase, and
`manifest_start ≤ addr ≤ manifest_start + size_of(Manifest)` during
manifest programming. -/
theorem program_invariant_preserved :
    (∀ (m : Memory) (buf : List Nat) (p : Program) (m1 : Memory),
      Program.new m buf = some (.ok (p, m1)) → ProgInv p m1) ∧
    (∀ (p : Program) (m : Memory) (buf : List Nat) (p1 : Program) (m1 : Memory),
      ProgInv p m → Program.update p m buf = some (.ok (p1, m1)) →
      ProgInv p1 m1) ∧
    (∀ (p : Program) (m : Memory) (p1 : Program) (m1 : Memory),
      ProgInv p m → Program.finalize p m = some (.ok (p1, m1)) →
      ProgInv p1 m1) ∧
    (∀ (p : Program) (m : Memory) (p1 : Program) (m1 : Memory)
        (r : Polled (Except Error Unit)),
      ProgInv p m → Program.poll p m = some (p1, m1, r) →
      r = .pending ∨ r = .ready (.ok ()) → ProgInv p1 m1) ∧
    (∀ (p : Program) (m : Memory), ProgInv p m →
      APPLICATION_REGION_START ≤ p.addr ∧
      (p.state = .AwaitData → p.addr ≤ MANIFEST_REGION_START) ∧
      (∀ data dl wr, p.state = .AwaitEraseBeforeProgram data dl wr ∨
          p.state = .AwaitProgram data dl wr →
        wr ≤ dl ∧ p.addr ≤ MANIFEST_REGION_START) ∧
      (∀ data wr, p.state = .AwaitProgramManifest data wr →
        wr ≤ data.length ∧ MANIFEST_REGION_START ≤ p.addr ∧
          p.addr ≤ MANIFEST_REGION_START + MANIFEST_SIZE)) := by
  refine ⟨progInv_new, progInv_update, progInv_finalize, progInv_poll, ?_⟩
  intro p m hInv
  obtain ⟨hAS, hst⟩ := hInv
  refine ⟨hAS, ?_, ?_, ?_⟩
  · intro hps
    rw [hps] at hst
    exact hst
  · intro data dl wr hps
    rcases hps with hps | hps <;> rw [hps] at hst
    · exact ⟨hst.1, le_of_lt hst.2.2.1⟩
    · exact ⟨hst.1, le_of_lt hst.2.2.1⟩
  · intro data wr hps
    rw [hps] at hst
    obtain ⟨hlen, hwr, haddr, _⟩ := hst
    exact ⟨hwr, by omega, by omega⟩

/-- Witness for C5 as amended: the invariant holds for the state
`Program::new` builds from a fresh flash and the block `[0xAA]`. -/
theorem program_invariant_preserved_witness :
    ProgInv ⟨2, APPLICATION_REGION_START,
        .AwaitEraseBeforeProgram (padTransfer [0xAA]) 1 0⟩
      ⟨eraseRegion 2 dirtyMem, .Erasing 2⟩ := by
  apply program_invariant_preserved.1 ⟨dirtyMem, .Idle⟩ [0xAA]
  have h1 : ¬ ((1 : Nat) ≥ APPLICATION_LENGTH) := by decide
  have h2 : Sector.tryFrom APPLICATION_REGION_START = some 2 := by decide
  have h3 : ¬ (TRANSFER_SIZE < 1) := by decide
  simp [Program.new, h1, h2, h3, Memory.erase]

end UsbdDfu
